import Mathlib

/-!
Verification development for the `app.py` medical-assistant chatbot.

Texts are modelled as `List Char`; Python `str.lower()` as `List.map
Char.toLower`; Python substring containment (`x in y`) as the decidable
relation `x <:+: y`; Python dicts (the knowledge base `MED_KB`, the medicine
catalog `MEDICINES`) as ordered association lists, preserving the declared
(insertion) iteration order that the matching cascade depends on; Python
floats as exact rationals.  The module-level Flask globals (`MED_KB`,
`MEDICINES`, `INDEX`, `session`) are passed as explicit parameters.
-/

/-- A text is a list of characters. -/
abbrev Txt := List Char

/-- Shorthand turning a string literal into a `Txt`. -/
def tl (s : String) : Txt := s.toList

/-- Python `str.lower()` (ASCII model). -/
def lowerTxt (t : Txt) : Txt := t.map Char.toLower

/-- Python `str.strip()`: drop whitespace from both ends. -/
def pyStrip (t : Txt) : Txt :=
  ((t.dropWhile Char.isWhitespace).reverse.dropWhile Char.isWhitespace).reverse

/-- Python `sep.join(parts)`. -/
def joinTxt (sep : Txt) (parts : List Txt) : Txt := List.intercalate sep parts

/-- A knowledge-base condition entry (value of `MED_KB[key]`).  `title`,
`symptoms` and `description` are read with `.get(..., "")` / `.get(..., [])`
in the source, so a missing field is modelled by the empty value;
`when_to_seek_care` is read with two different defaults, so it stays an
`Option`. -/
structure CondEntry where
  title : Txt
  symptoms : List Txt
  description : Txt
  when_to_seek_care : Option Txt
deriving DecidableEq

/-- The knowledge base `MED_KB`: an ordered association list (Python dicts
iterate in insertion order). -/
abbrev KBase := List (Txt × CondEntry)

/-- One entry of the keyword index `INDEX` (app.py lines 22-28): the pair
`{"title": item.get("title",""), "keywords": set([title.lower()]) |
set(s.lower() for s in symptoms)}` together with its key.  The Python
`set` is modelled as a duplicate-free list; the enumeration order of a
Python set is unspecified, which is exactly what claim C9 is about. -/
structure IdxCond where
  key : Txt
  title : Txt
  keywords : List Txt
deriving DecidableEq

/-- `INDEX` building loop (app.py lines 23-28). -/
def buildIndex (kb : KBase) : List IdxCond :=
  kb.map (fun e =>
    { key := e.1
      title := e.2.title
      keywords := (lowerTxt e.2.title :: e.2.symptoms.map lowerTxt).dedup })

/-- One medicine record (`medicines.json` entry): `name`, `use`, `warning`
(the source reads `use`/`warning` with `.get(..., "")`). -/
structure MedEntry where
  name : Txt
  use : Txt
  warning : Txt
deriving DecidableEq

/-- The medicine catalog `MEDICINES`: ordered association list. -/
abbrev Catalog := List (Txt × List MedEntry)

/-- One history entry appended by `add_to_history` (app.py line 45). -/
structure DialogTurn where
  user : Txt
  bot : Txt
  condition : Option Txt
deriving DecidableEq

/-- The payload returned by the `/chat` route: the reply text, the updated
session history, and the symptom-mode candidates (key, title, score) when
that stage ran. -/
structure ChatReply where
  reply : Txt
  history : List DialogTurn
  candidates : Option (List (Txt × Txt × ℚ))
deriving DecidableEq

/-- `EMERGENCY_SIGNS` (app.py lines 30-33). -/
def EMERGENCY_SIGNS : List Txt :=
  [tl "chest pain", tl "cannot breathe", tl "difficulty breathing",
   tl "severe bleeding", tl "unconscious", tl "seizure", tl "blue lips",
   tl "stroke", tl "sudden weakness", tl "fainting"]

/-- `DISCLAIMER` (app.py lines 35-38). -/
def DISCLAIMER : Txt :=
  tl "⚠️ I provide general health information only — not medical advice. If you think it\x27s an emergency, contact your local emergency services immediately."

/-- `check_emergency` (app.py lines 66-71): first emergency phrase, in list
order, contained in the lowercased message. -/
def check_emergency (msg : Txt) : Bool × Option Txt :=
  match EMERGENCY_SIGNS.find? (fun s => decide (s <:+: lowerTxt msg)) with
  | some s => (true, some s)
  | none => (false, none)

/-- Python truthiness of `entry.get("condition")`: `None` and `""` are
falsy, any non-empty string is truthy. -/
def pyTruthyOpt (o : Option Txt) : Bool :=
  match o with
  | some s => !(s == [])
  | none => false

/-- The loop body of `last_matched_condition_from_history` (app.py lines
54-62), walking the already-reversed history (newest first): `if cond:
return cond` else scan the turn's lowercased bot text for a knowledge-base
key, else continue with the next older turn. -/
def lmcGo (keys : List Txt) : List DialogTurn → Option Txt
  | [] => none
  | e :: rest =>
    if pyTruthyOpt e.condition then e.condition
    else
      match keys.find? (fun k => decide (k <:+: lowerTxt e.bot)) with
      | some k => some k
      | none => lmcGo keys rest

/-- `last_matched_condition_from_history` (app.py lines 51-63); `keys` is
`MED_KB.keys()` in declared order, `hist` the session history in append
order (the source iterates `reversed(hist)`). -/
def last_matched_condition_from_history (keys : List Txt) (hist : List DialogTurn) : Option Txt :=
  lmcGo keys hist.reverse

/-- The f-string of app.py line 119: `- name: use (Warning: warning)`. -/
def fmtMed (m : MedEntry) : Txt :=
  tl "- " ++ m.name ++ tl ": " ++ m.use ++ tl " (Warning: " ++ m.warning ++ tl ")"

/-- `get_medicine_text` (app.py lines 113-121): `None` when the key is not
in the catalog, otherwise the newline-joined formatted entries (which is
the empty string when the key maps to an empty list). -/
def get_medicine_text (meds : Catalog) (k : Txt) : Option Txt :=
  match meds.find? (fun p => p.1 == k) with
  | some p => some (joinTxt (tl "\n") (p.2.map fmtMed))
  | none => none

/-- Python `x or default` for an optional string: `None` and `""` give the
default. -/
def pyOrTxt (o : Option Txt) (d : Txt) : Txt :=
  match o with
  | some s => if s == [] then d else s
  | none => d

/-- `PRECAUTION_MAP` (app.py lines 124-159). -/
def PRECAUTION_MAP : List (Txt × List Txt) :=
  [(tl "fever",
    [tl "Rest and avoid strenuous activity.",
     tl "Keep hydrated — drink plenty of fluids (water, ORS).",
     tl "Monitor temperature regularly.",
     tl "Avoid giving aspirin to children — use paracetamol for fever in children as per label and medical advice.",
     tl "Avoid self-prescribing antibiotics unless a doctor recommends them."]),
   (tl "headache",
    [tl "Rest in a quiet, dark room if light/noise worsens the headache.",
     tl "Stay hydrated; avoid long screen time and eye strain.",
     tl "Try relaxation/breathing exercises for tension headaches."]),
   (tl "common_cold",
    [tl "Rest and increase fluid intake.",
     tl "Use saline nasal spray and humidifier to ease congestion.",
     tl "Avoid close contact with others while symptomatic."]),
   (tl "flu",
    [tl "Rest, hydrate, and avoid contact with vulnerable people (elderly, infants).",
     tl "Consider staying home until 24 hours after fever subsides without medicines."]),
   (tl "sore_throat",
    [tl "Gargle warm salt water and drink warm fluids.",
     tl "Avoid irritants like smoke and dry air."]),
   (tl "minor_burn",
    [tl "Cool with running water (10–20 minutes).",
     tl "Cover with sterile non-stick dressing; do not apply butter or toothpaste."]),
   (tl "sprained_ankle",
    [tl "Follow RICE: Rest, Ice, Compression, Elevation.",
     tl "Avoid putting weight on it until comfortable."])]

/-- `GENERIC_PRECAUTIONS` (app.py lines 161-166). -/
def GENERIC_PRECAUTIONS : List Txt :=
  [tl "If symptoms worsen or you have severe signs (chest pain, difficulty breathing, fainting, severe bleeding), seek emergency care immediately.",
   tl "Avoid taking antibiotics or prescription medications without a doctor\x27s advice.",
   tl "If you have allergies, chronic illnesses, or are pregnant, consult a healthcare professional before taking medicines.",
   tl "Keep track of symptom duration and severity; seek professional care if symptoms persist or worsen."]

/-- The two tips synthesized for a knowledge-base condition without curated
precautions (app.py lines 175-178). -/
def synthTips (e : CondEntry) : List Txt :=
  [tl "Follow general supportive measures (rest, fluids, symptom relief).",
   tl "Watch for red flags: " ++ e.when_to_seek_care.getD (tl "seek care if concerned.")]

/-- The two lead-in tips used when no condition is known (app.py lines
181-184). -/
def noCondTips : List Txt :=
  [tl "Provide clear symptom list (e.g., \x27fever, cough, sore throat\x27) so I can suggest likely conditions.",
   tl "In the meantime: stay hydrated, rest, avoid self-prescribed antibiotics, monitor red-flag signs."]

/-- The final join of app.py line 185: each tip rendered as `- tip`,
newline separated. -/
def bulletJoin (tips : List Txt) : Txt :=
  joinTxt (tl "\n") (tips.map (fun t => tl "- " ++ t))

/-- `get_precaution_text` (app.py lines 168-185).  The Python guards are
`condition_key and condition_key in PRECAUTION_MAP` / `condition_key and
condition_key in MED_KB`: a `None` or empty key fails both and lands in the
generic branch. -/
def get_precaution_text (kb : KBase) (ck : Option Txt) : Txt :=
  let tips :=
    match ck with
    | some k =>
      if k ≠ [] then
        match PRECAUTION_MAP.find? (fun p => p.1 == k) with
        | some p => p.2 ++ GENERIC_PRECAUTIONS.take 2
        | none =>
          match kb.find? (fun p => p.1 == k) with
          | some p => synthTips p.2 ++ GENERIC_PRECAUTIONS.take 1
          | none => noCondTips ++ GENERIC_PRECAUTIONS
      else noCondTips ++ GENERIC_PRECAUTIONS
    | none => noCondTips ++ GENERIC_PRECAUTIONS
  bulletJoin tips

/-- The keyword set recomputed inside `symptom_checker` (app.py line 98):
non-empty keywords only. -/
def kwSetOf (c : IdxCond) : List Txt :=
  (c.keywords.filter (fun k => !(k == []))).dedup

/-- The hit counter of `symptom_checker` (app.py lines 101-106): one hit
per symptom phrase containing at least one keyword (the inner loop breaks
after the first matching keyword). -/
def hitsOf (kwSet : List Txt) (syms : List Txt) : Nat :=
  syms.countP (fun s => kwSet.any (fun kw => decide (kw <:+: s)))

/-- The score of one condition in `symptom_checker` (app.py line 107):
`hits / max(1, len(kw_set))`. -/
def scoreOf (c : IdxCond) (syms : List Txt) : ℚ :=
  (hitsOf (kwSetOf c) syms : ℚ) / ((max 1 (kwSetOf c).length : Nat) : ℚ)

/-- Stable insertion of one scored item into a descending-sorted list: the
new item goes before the first strictly smaller score, after existing equal
scores, matching Python list-sort stability with `reverse=True`. -/
def insertDesc (x : Txt × ℚ) : List (Txt × ℚ) → List (Txt × ℚ)
  | [] => [x]
  | y :: ys => if y.2 ≤ x.2 then x :: y :: ys else y :: insertDesc x ys

/-- `scores.sort(key=lambda x: x[1], reverse=True)` (app.py lines 90, 109):
Python's sort is stable, so it is modelled by a stable descending
insertion sort (any stable descending sort returns the same list). -/
def sortDesc (l : List (Txt × ℚ)) : List (Txt × ℚ) := l.foldr insertDesc []

/-- Python `round(x, 3)` (app.py line 110): nearest multiple of 1/1000,
ties to even (Python rounds binary floats; modelled exactly on rationals). -/
def roundHalfEven (x : ℚ) : ℤ :=
  let f := ⌊x⌋
  let r := x - f
  if r < 1/2 then f else if 1/2 < r then f + 1 else if f % 2 = 0 then f else f + 1

/-- `round(s, 3)` as a rational. -/
def round3 (x : ℚ) : ℚ := ((roundHalfEven (x * 1000) : ℤ) : ℚ) / 1000

/-- `symptom_checker` (app.py lines 95-110): score every condition with a
non-empty keyword set, sort stably by descending score, keep positive
scores rounded to three decimals, return the first `top_n`. -/
def symptom_checker (idx : List IdxCond) (syms : List Txt) (top_n : Nat) : List (Txt × ℚ) :=
  let scores := idx.filterMap (fun c =>
    if kwSetOf c = [] then none else some (c.key, scoreOf c syms))
  (((sortDesc scores).filter (fun x => 0 < x.2)).map (fun x => (x.1, round3 x.2))).take top_n

/-!  ### difflib.SequenceMatcher (stdlib), as called on line 88:
`difflib.SequenceMatcher(None, t, combined).ratio()`.

With `isjunk=None` the junk set `bjunk` is empty; `autojunk=True` (the
default) removes "popular" elements from `b2j` when `len(b) >= 200`.
Loops are rendered as structural recursions / folds so that the kernel can
evaluate them; the two `find_longest_match` extension loops that are
guarded by `isbjunk(...)` being true are omitted because `bjunk` is empty,
so those guards are always false. -/

/-- `b2j` before autojunk: the ascending list of positions of `c` in `b`. -/
def b2jAll (b : Txt) (c : Char) : List Nat :=
  (b.enum.filter (fun p => p.2 == c)).map (fun p => p.1)

/-- `__chain_b`: positions of `c` in `b`, with popular elements (more than
`len(b)//100 + 1` occurrences) dropped when `len(b) >= 200`. -/
def b2j (b : Txt) (c : Char) : List Nat :=
  let js := b2jAll b c
  if 200 ≤ b.length ∧ b.length / 100 + 1 < js.length then [] else js

/-- The inner loop of `find_longest_match` over `b2j.get(a[i], [])`:
`continue` on `j < blo`, `break` on `j >= bhi`, otherwise extend the
longest-common-suffix table and update the best block on a strictly
greater size. -/
def flmRow (blo bhi i : Nat) (mOld : Nat → Nat) :
    List Nat → (Nat → Nat) → Nat × Nat × Nat → (Nat → Nat) × (Nat × Nat × Nat)
  | [], mNew, best => (mNew, best)
  | j :: rest, mNew, best =>
    if j < blo then flmRow blo bhi i mOld rest mNew best
    else if bhi ≤ j then (mNew, best)
    else
      let k := (if j = 0 then 0 else mOld (j - 1)) + 1
      let mNew' := fun j' => if j' = j then k else mNew j'
      let best' := if best.2.2 < k then (i + 1 - k, j + 1 - k, k) else best
      flmRow blo bhi i mOld rest mNew' best'

/-- The outer loop of `find_longest_match`: `for i in range(alo, ahi)`,
threading the suffix table (`j2len` / `newj2len`) and the best block. -/
def flmScan (a b : Txt) (alo ahi blo bhi : Nat) : Nat × Nat × Nat :=
  ((List.range' alo (ahi - alo)).foldl
    (fun st i => flmRow blo bhi i st.1 (b2j b (a.getD i ' ')) (fun _ => 0) st.2)
    ((fun _ => 0), (alo, blo, 0))).2

/-- First extension loop: `while besti > alo and bestj > blo and
a[besti-1] == b[bestj-1]`, widening the block downwards (non-junk guard
dropped: `bjunk` is empty). -/
def extLo (a b : Txt) (alo blo : Nat) : Nat → Nat → Nat → Nat × Nat × Nat
  | 0, j, k => (0, j, k)
  | i + 1, j, k =>
    if alo ≤ i ∧ blo < j ∧ a.getD i ' ' = b.getD (j - 1) ' ' then
      extLo a b alo blo i (j - 1) (k + 1)
    else (i + 1, j, k)

/-- Second extension loop: `while besti+bestsize < ahi and bestj+bestsize
< bhi and a[besti+bestsize] == b[bestj+bestsize]`, widening upwards.  The
loop runs at most `ahi` times (its guard needs `besti+bestsize < ahi`), so
`fuel = ahi` makes the recursion equal to the `while` loop. -/
def extHi (a b : Txt) (ahi bhi : Nat) : Nat → Nat → Nat → Nat → Nat
  | 0, _, _, k => k
  | fuel + 1, i, j, k =>
    if i + k < ahi ∧ j + k < bhi ∧ a.getD (i + k) ' ' = b.getD (j + k) ' ' then
      extHi a b ahi bhi fuel i j (k + 1)
    else k

/-- `find_longest_match(alo, ahi, blo, bhi)` with `isjunk=None`. -/
def find_longest_match (a b : Txt) (alo ahi blo bhi : Nat) : Nat × Nat × Nat :=
  let best := flmScan a b alo ahi blo bhi
  let lo := extLo a b alo blo best.1 best.2.1 best.2.2
  (lo.1, lo.2.1, extHi a b ahi bhi ahi lo.1 lo.2.1 lo.2.2)

/-- The total size of all matching blocks (`get_matching_blocks` splits
the range at the longest match and recurses on both sides; merging of
adjacent blocks does not change the total).  Each recursive call strictly
shrinks the `a`-interval, so the recursion depth is at most
`ahi - alo + 1`; callers pass `fuel = a.length + 1`, which therefore
reproduces the stdlib recursion exactly. -/
def matchesTotal (a b : Txt) : Nat → Nat → Nat → Nat → Nat → Nat
  | 0, _, _, _, _ => 0
  | fuel + 1, alo, ahi, blo, bhi =>
    let m := find_longest_match a b alo ahi blo bhi
    if m.2.2 = 0 then 0
    else
      matchesTotal a b fuel alo m.1 blo m.2.1 + m.2.2 +
        matchesTotal a b fuel (m.1 + m.2.2) ahi (m.2.1 + m.2.2) bhi

/-- `SequenceMatcher.ratio()`: `2.0 * matches / (len(a) + len(b))`, and
`1.0` when both sequences are empty (`_calculate_ratio`). -/
def ratioOf (a b : Txt) : ℚ :=
  if a.length + b.length = 0 then 1
  else 2 * ((matchesTotal a b (a.length + 1) 0 a.length 0 b.length : Nat) : ℚ) /
    (((a.length + b.length : Nat) : ℚ))

/-! ### Bounds for the matcher: a matching block lies inside its range,
hence the total match size is at most each side's length and the ratio is
at most 1. -/

/-- Well-formedness of the best block held by `find_longest_match`'s scan:
it starts inside the range, a non-trivial block fits in both ranges, and a
trivial block is still the initial `(alo, blo, 0)`. -/
def BestOK (alo ahi blo bhi : Nat) (t : Nat × Nat × Nat) : Prop :=
  alo ≤ t.1 ∧ blo ≤ t.2.1 ∧
    (1 ≤ t.2.2 → t.1 + t.2.2 ≤ ahi ∧ t.2.1 + t.2.2 ≤ bhi) ∧
    (t.2.2 = 0 → t.1 = alo ∧ t.2.1 = blo)

/-- Well-formedness of a suffix-length table while scanning row `i`: every
entry is zero or describes a common suffix that fits between `blo` and its
column and between `alo` and the previous row. -/
def MOK (alo blo i : Nat) (m : Nat → Nat) : Prop :=
  ∀ j', m j' = 0 ∨ (blo ≤ j' ∧ m j' + blo ≤ j' + 1 ∧ m j' + alo ≤ i)

theorem flmRow_ok (alo ahi blo bhi i : Nat) (mOld : Nat → Nat)
    (js : List Nat) (mNew : Nat → Nat) (best : Nat × Nat × Nat)
    (hOld : MOK alo blo i mOld) (hNew : MOK alo blo (i + 1) mNew)
    (hbest : BestOK alo ahi blo bhi best) (hi : i < ahi) (hai : alo ≤ i) :
    MOK alo blo (i + 1) (flmRow blo bhi i mOld js mNew best).1 ∧
      BestOK alo ahi blo bhi (flmRow blo bhi i mOld js mNew best).2 := by
  induction js generalizing mNew best with
  | nil => exact ⟨hNew, hbest⟩
  | cons j rest ih =>
    by_cases h1 : j < blo
    · simpa [flmRow, h1] using ih mNew best hNew hbest
    · by_cases h2 : bhi ≤ j
      · simpa [flmRow, h1, h2] using ⟨hNew, hbest⟩
      · have hbloj : blo ≤ j := Nat.le_of_not_lt h1
        have hjbhi : j < bhi := Nat.lt_of_not_le h2
        simp only [flmRow, h1, h2, if_false, if_true, reduceIte]
        generalize hk : (if j = 0 then 0 else mOld (j - 1)) + 1 = k
        have hkblo : k + blo ≤ j + 1 := by
          rcases Nat.eq_zero_or_pos j with hj0 | hjpos
          · subst hj0
            simp at hk
            omega
          · have hjne : j ≠ 0 := Nat.pos_iff_ne_zero.mp hjpos
            rw [if_neg hjne] at hk
            rcases hOld (j - 1) with hz | ⟨_, hB, _⟩
            · omega
            · omega
        have hkalo : k + alo ≤ i + 1 := by
          rcases Nat.eq_zero_or_pos j with hj0 | hjpos
          · subst hj0
            simp at hk
            omega
          · have hjne : j ≠ 0 := Nat.pos_iff_ne_zero.mp hjpos
            rw [if_neg hjne] at hk
            rcases hOld (j - 1) with hz | ⟨_, _, hA⟩
            · omega
            · omega
        have hk1 : 1 ≤ k := by omega
        have hNew' : MOK alo blo (i + 1)
            (fun j' => if j' = j then k else mNew j') := by
          intro j'
          by_cases hjj : j' = j
          · subst hjj
            right
            refine ⟨hbloj, ?_, ?_⟩ <;> simp <;> omega
          · simpa [hjj] using hNew j'
        have hbest' : BestOK alo ahi blo bhi
            (if best.2.2 < k then (i + 1 - k, j + 1 - k, k) else best) := by
          by_cases hlt : best.2.2 < k
          · rw [if_pos hlt]
            refine ⟨show alo ≤ i + 1 - k by omega,
                    show blo ≤ j + 1 - k by omega, ?_, ?_⟩
            · intro _
              exact ⟨show i + 1 - k + k ≤ ahi by omega,
                     show j + 1 - k + k ≤ bhi by omega⟩
            · intro h0
              exact absurd h0 (Nat.pos_iff_ne_zero.mp hk1)
          · rw [if_neg hlt]; exact hbest
        exact ih _ _ hNew' hbest'

theorem flmScan_foldl_ok (alo ahi blo bhi : Nat) (a b : Txt) :
    ∀ (n i : Nat) (m : Nat → Nat) (best : Nat × Nat × Nat),
      MOK alo blo i m → BestOK alo ahi blo bhi best → alo ≤ i → i + n ≤ ahi →
      BestOK alo ahi blo bhi
        (((List.range' i n).foldl
          (fun st i' => flmRow blo bhi i' st.1 (b2j b (a.getD i' ' ')) (fun _ => 0) st.2)
          (m, best)).2) := by
  intro n
  induction n with
  | zero => intro i m best _ hbest _ _; simpa using hbest
  | succ n ih =>
    intro i m best hm hbest hai hn
    have hi : i < ahi := by omega
    have hstep := flmRow_ok alo ahi blo bhi i m (b2j b (a.getD i ' '))
      (fun _ => 0) best hm (fun _ => Or.inl rfl) hbest hi hai
    have hr : List.range' i (n + 1) = i :: List.range' (i + 1) n := by
      simp [List.range'_succ]
    rw [hr]
    simp only [List.foldl_cons]
    exact ih (i + 1)
      (flmRow blo bhi i m (b2j b (a.getD i ' ')) (fun _ => 0) best).1
      (flmRow blo bhi i m (b2j b (a.getD i ' ')) (fun _ => 0) best).2
      hstep.1 hstep.2 (by omega) (by omega)

theorem flmScan_ok (a b : Txt) (alo ahi blo bhi : Nat) :
    BestOK alo ahi blo bhi (flmScan a b alo ahi blo bhi) := by
  have hinit : BestOK alo ahi blo bhi (alo, blo, 0) := by
    refine ⟨le_refl _, le_refl _, ?_, fun _ => ⟨rfl, rfl⟩⟩
    intro h; exact absurd h (Nat.not_succ_le_zero 0)
  by_cases h : ahi ≤ alo
  · have : ahi - alo = 0 := by omega
    simpa [flmScan, this] using hinit
  · have := flmScan_foldl_ok alo ahi blo bhi a b (ahi - alo) alo
      (fun _ => 0) (alo, blo, 0) (fun _ => Or.inl rfl) hinit (le_refl _) (by omega)
    simpa [flmScan] using this

theorem extLo_ok (a b : Txt) (alo blo : Nat) :
    ∀ (i j k : Nat), alo ≤ i → blo ≤ j →
      alo ≤ (extLo a b alo blo i j k).1 ∧
      blo ≤ (extLo a b alo blo i j k).2.1 ∧
      (extLo a b alo blo i j k).1 + (extLo a b alo blo i j k).2.2 = i + k ∧
      (extLo a b alo blo i j k).2.1 + (extLo a b alo blo i j k).2.2 = j + k ∧
      k ≤ (extLo a b alo blo i j k).2.2 := by
  intro i
  induction i with
  | zero =>
    intro j k hai hbj
    exact ⟨hai, hbj, rfl, rfl, le_refl _⟩
  | succ i ih =>
    intro j k hai hbj
    by_cases h : alo ≤ i ∧ blo < j ∧ a.getD i ' ' = b.getD (j - 1) ' '
    · obtain ⟨ha1, ha2, ha3⟩ := h
      have hrec := ih (j - 1) (k + 1) ha1 (by omega)
      have heq : extLo a b alo blo (i + 1) j k = extLo a b alo blo i (j - 1) (k + 1) := by
        simp only [extLo]
        rw [if_pos ⟨ha1, ha2, ha3⟩]
      rw [heq]
      exact ⟨hrec.1, hrec.2.1, by omega, by omega, by omega⟩
    · have heq : extLo a b alo blo (i + 1) j k = (i + 1, j, k) := by
        simp only [extLo]
        rw [if_neg h]
      rw [heq]
      exact ⟨hai, hbj, rfl, rfl, le_refl _⟩

/-- `extLo` started at the lower bound does not move. -/
theorem extLo_self (a b : Txt) (alo blo j k : Nat) :
    extLo a b alo blo alo j k = (alo, j, k) := by
  cases alo with
  | zero => simp [extLo]
  | succ m =>
    have h : ¬ (m + 1 ≤ m ∧ blo < j ∧ a.getD m ' ' = b.getD (j - 1) ' ') := by
      rintro ⟨h1, -, -⟩; omega
    simp [extLo, h]

theorem extHi_ok (a b : Txt) (ahi bhi : Nat) :
    ∀ (fuel i j k : Nat), i + k ≤ ahi → j + k ≤ bhi →
      k ≤ extHi a b ahi bhi fuel i j k ∧
      i + extHi a b ahi bhi fuel i j k ≤ ahi ∧
      j + extHi a b ahi bhi fuel i j k ≤ bhi := by
  intro fuel
  induction fuel with
  | zero => intro i j k h1 h2; exact ⟨le_refl _, h1, h2⟩
  | succ fuel ih =>
    intro i j k h1 h2
    by_cases h : i + k < ahi ∧ j + k < bhi ∧ a.getD (i + k) ' ' = b.getD (j + k) ' '
    · have hrec := ih i j (k + 1) (by omega) (by omega)
      have heq : extHi a b ahi bhi (fuel + 1) i j k = extHi a b ahi bhi fuel i j (k + 1) := by
        simp only [extHi]
        rw [if_pos h]
      rw [heq]
      exact ⟨by omega, hrec.2.1, hrec.2.2⟩
    · have heq : extHi a b ahi bhi (fuel + 1) i j k = k := by
        simp only [extHi]
        rw [if_neg h]
      rw [heq]
      exact ⟨le_refl _, h1, h2⟩

/-- `extHi` with a false guard returns its input. -/
theorem extHi_stuck (a b : Txt) (ahi bhi fuel i j k : Nat)
    (h : ¬ (i + k < ahi ∧ j + k < bhi ∧ a.getD (i + k) ' ' = b.getD (j + k) ' ')) :
    extHi a b ahi bhi fuel i j k = k := by
  cases fuel with
  | zero => rfl
  | succ fuel =>
    simp only [extHi]
    rw [if_neg h]

/-- A non-trivial block returned by `find_longest_match` fits inside the
requested ranges. -/
theorem find_longest_match_bounds (a b : Txt) (alo ahi blo bhi : Nat)
    (h1 : 1 ≤ (find_longest_match a b alo ahi blo bhi).2.2) :
    alo ≤ (find_longest_match a b alo ahi blo bhi).1 ∧
    blo ≤ (find_longest_match a b alo ahi blo bhi).2.1 ∧
    (find_longest_match a b alo ahi blo bhi).1 +
      (find_longest_match a b alo ahi blo bhi).2.2 ≤ ahi ∧
    (find_longest_match a b alo ahi blo bhi).2.1 +
      (find_longest_match a b alo ahi blo bhi).2.2 ≤ bhi := by
  have hscan := flmScan_ok a b alo ahi blo bhi
  rcases hs : flmScan a b alo ahi blo bhi with ⟨bi, bj, bk⟩
  rw [hs] at hscan
  obtain ⟨hA, hB, hFit, hZero⟩ := hscan
  simp only at hA hB hFit hZero
  rcases hl : extLo a b alo blo bi bj bk with ⟨li, lj, lk⟩
  have hext := extLo_ok a b alo blo bi bj bk hA hB
  rw [hl] at hext
  simp only at hext
  obtain ⟨hLA, hLB, hLs1, hLs2, hLk⟩ := hext
  have hdef : find_longest_match a b alo ahi blo bhi
      = (li, lj, extHi a b ahi bhi ahi li lj lk) := by
    simp only [find_longest_match, hs]
    rw [hl]
  rw [hdef] at h1 ⊢
  simp only at h1 ⊢
  rcases Nat.eq_zero_or_pos bk with hz | hpos
  · obtain ⟨hia, hjb⟩ := hZero hz
    rw [hia, hjb, hz] at hl
    have hself := extLo_self a b alo blo blo 0
    have hcomp : li = alo ∧ lj = blo ∧ lk = 0 := by
      simpa using (hl.symm.trans hself)
    obtain ⟨e1, e2, e3⟩ := hcomp
    rw [e1, e2, e3] at h1 ⊢
    by_cases hok : alo ≤ ahi ∧ blo ≤ bhi
    · have hx := extHi_ok a b ahi bhi ahi alo blo 0 (by omega) (by omega)
      exact ⟨le_refl _, le_refl _, by omega, by omega⟩
    · exfalso
      have hstuck : extHi a b ahi bhi ahi alo blo 0 = 0 := by
        apply extHi_stuck
        rintro ⟨hxx, hyy, -⟩
        exact hok ⟨by omega, by omega⟩
      omega
  · obtain ⟨hf1, hf2⟩ := hFit hpos
    have hx := extHi_ok a b ahi bhi ahi li lj lk (by omega) (by omega)
    exact ⟨by omega, by omega, by omega, by omega⟩

/-- The total match size is bounded by both interval lengths. -/
theorem matchesTotal_le (a b : Txt) :
    ∀ (fuel alo ahi blo bhi : Nat),
      matchesTotal a b fuel alo ahi blo bhi ≤ ahi - alo ∧
      matchesTotal a b fuel alo ahi blo bhi ≤ bhi - blo := by
  intro fuel
  induction fuel with
  | zero => intro alo ahi blo bhi; simp [matchesTotal]
  | succ fuel ih =>
    intro alo ahi blo bhi
    by_cases hz : (find_longest_match a b alo ahi blo bhi).2.2 = 0
    · simp [matchesTotal, hz]
    · have hb := find_longest_match_bounds a b alo ahi blo bhi (by omega)
      have h1 := ih alo (find_longest_match a b alo ahi blo bhi).1 blo
        (find_longest_match a b alo ahi blo bhi).2.1
      have h2 := ih ((find_longest_match a b alo ahi blo bhi).1 +
          (find_longest_match a b alo ahi blo bhi).2.2) ahi
        ((find_longest_match a b alo ahi blo bhi).2.1 +
          (find_longest_match a b alo ahi blo bhi).2.2) bhi
      simp only [matchesTotal, hz, if_false, reduceIte]
      omega

theorem ratioOf_nonneg (a b : Txt) : 0 ≤ ratioOf a b := by
  unfold ratioOf
  split
  · norm_num
  · positivity

theorem ratioOf_le_one (a b : Txt) : ratioOf a b ≤ 1 := by
  unfold ratioOf
  split
  · exact le_refl 1
  · rename_i h
    have hM := matchesTotal_le a b (a.length + 1) 0 a.length 0 b.length
    have h2M : 2 * matchesTotal a b (a.length + 1) 0 a.length 0 b.length ≤
        a.length + b.length := by omega
    rw [div_le_one (by positivity)]
    push_cast
    exact_mod_cast (by exact_mod_cast h2M : (2 * matchesTotal a b (a.length + 1) 0 a.length 0 b.length : ℚ) ≤ ((a.length + b.length : Nat) : ℚ))

/-- The vocabulary string of the fuzzy tier (app.py line 87):
`meta["title"].lower() + " " + " ".join(meta["keywords"])` — note that it
joins the keyword set in its enumeration order. -/
def combinedVocab (c : IdxCond) : Txt :=
  lowerTxt c.title ++ tl " " ++ joinTxt (tl " ") c.keywords

/-- The fuzzy-fallback tier (app.py lines 84-93): score every condition,
sort stably by descending score, accept the top score iff it reaches 0.45,
otherwise `(None, 0.0)`. -/
def fuzzy_fallback (idx : List IdxCond) (t : Txt) : Option Txt × ℚ :=
  let scores := idx.map (fun c => (c.key, ratioOf t (combinedVocab c)))
  match sortDesc scores with
  | [] => (none, 0)
  | top :: _ => if (45 : ℚ)/100 ≤ top.2 then (some top.1, top.2) else (none, 0)

/-- `find_condition_simple` (app.py lines 73-93): direct-key tier, then
keyword tier (`if kw and kw in t`), then fuzzy fallback.  Tier 1 iterates
`MED_KB.keys()` and tiers 2-3 iterate `INDEX.items()`; `INDEX` is built
over `MED_KB` in order, so both carry the same keys in the same order and
the function takes the index. -/
def find_condition_simple (idx : List IdxCond) (msg : Txt) : Option Txt × ℚ :=
  let t := lowerTxt msg
  match idx.find? (fun c => decide (c.key <:+: t)) with
  | some c => (some c.key, 1)
  | none =>
    match idx.find? (fun c => c.keywords.any (fun kw => !(kw == []) && decide (kw <:+: t))) with
    | some c => (some c.key, 1)
    | none => fuzzy_fallback idx t

/-- `f"⚠️ The symptom '{sign}' may be life-threatening. Contact emergency
services immediately."` (app.py line 242). -/
def emergencyReply (sign : Txt) : Txt :=
  tl "⚠️ The symptom \x27" ++ sign ++
    tl "\x27 may be life-threatening. Contact emergency services immediately."

/-- `MED_KB[k]` (the default entry is unreachable in the router: every
looked-up key comes from the knowledge base itself). -/
def kbEntry (kb : KBase) (k : Txt) : CondEntry :=
  match kb.find? (fun e => e.1 == k) with
  | some e => e.2
  | none => ⟨[], [], [], none⟩

/-- `MED_KB[k]["title"]`. -/
def kbTitle (kb : KBase) (k : Txt) : Txt := (kbEntry kb k).title

/-- The intent keyword list of app.py line 256. -/
def INTENT_KEYWORDS : List Txt :=
  [tl "precaution", tl "precautions", tl "precautionary", tl "medicine",
   tl "medicines", tl "medication", tl "drugs", tl "suggest medicine",
   tl "suggest me medicine", tl "what medicine", tl "what to take"]

/-- `"No non-prescription options found in the database."` (app.py lines
267, 275). -/
def NO_MED_MSG : Txt := tl "No non-prescription options found in the database."

/-- The fallback reply (app.py lines 311-313). -/
def FALLBACK_REPLY : Txt :=
  tl "I couldn\x27t identify a clear match. If you can list several symptoms separated by commas (for example: \x27fever, cough, sore throat\x27), I can run a symptom-check to suggest possible conditions. Or specify the condition you\x27d like precautions/medicines for (e.g., \x27for headache\x27)."

/-- `re.split(r",|;| and ", msg)` (app.py line 287): scan left to right;
at each position the alternatives `,`, `;`, ` and ` are tried in order. -/
def reSplitParts : Txt → Txt → List Txt
  | [], acc => [acc.reverse]
  | c :: rest, acc =>
    if c = ',' ∨ c = ';' then acc.reverse :: reSplitParts rest []
    else if (c :: rest).take 5 = tl " and " then
      acc.reverse :: reSplitParts (rest.drop 4) []
    else reSplitParts rest (c :: acc)
termination_by l _ => l.length
decreasing_by
  all_goals simp [List.length_drop]
  all_goals omega

/-- The symptom-mode part list (app.py line 287): split, keep parts that
are non-empty after stripping, stripped and lowercased. -/
def splitSymptoms (msg : Txt) : List Txt :=
  ((reSplitParts msg []).filter (fun p => !(pyStrip p == []))).map
    (fun p => lowerTxt (pyStrip p))

/-- `add_to_history` (app.py lines 41-46): append one turn. -/
def add_to_history (hist : List DialogTurn) (u b : Txt) (cond : Option Txt) : List DialogTurn :=
  hist ++ [⟨u, b, cond⟩]

/-- The `/chat` route (app.py lines 229-319) as a pure function of the
loaded resources, the session history and the request payload.  The
regex-based smalltalk matcher (`match_smalltalk`, backed by `re.search`)
and the float formatting of symptom scores (`f"{c['score']}"`) are
abstracted as the `smalltalk` and `renderScore` parameters; every claim
below quantifies over them.  The OpenAI branch is disabled
(`USE_OPENAI = False` without the environment variable), `render_template`
and transport concerns are outside the router. -/
def chat (kb : KBase) (meds : Catalog) (smalltalk : Txt → Option Txt)
    (renderScore : ℚ → Txt) (hist : List DialogTurn) (msgRaw : Txt)
    (symptom_mode : Bool) : ChatReply :=
  let msg := pyStrip msgRaw
  if msg = [] then
    { reply := tl "Please type your symptoms or question.", history := hist,
      candidates := none }
  else
    let em := check_emergency msg
    if em.1 then
      let reply := emergencyReply (em.2.getD [])
      { reply := reply, history := add_to_history hist msg reply none,
        candidates := none }
    else
      match smalltalk msg with
      | some small =>
        { reply := small, history := add_to_history hist msg small none,
          candidates := none }
      | none =>
        let lower := lowerTxt msg
        let intent := INTENT_KEYWORDS.any (fun kw => decide (kw <:+: lower))
        let matched_cond := (find_condition_simple (buildIndex kb) msg).1
        if intent then
          match matched_cond with
          | some mc =>
            let prec := get_precaution_text kb (some mc)
            let med := pyOrTxt (get_medicine_text meds mc) NO_MED_MSG
            let reply := tl "Precautions for **" ++ kbTitle kb mc ++ tl "**:\n" ++
              prec ++ tl "\n\nNon-prescription suggestions:\n" ++ med ++
              tl "\n\n" ++ DISCLAIMER
            { reply := reply, history := add_to_history hist msg reply (some mc),
              candidates := none }
          | none =>
            match last_matched_condition_from_history (kb.map (fun e => e.1)) hist with
            | some lc =>
              let prec := get_precaution_text kb (some lc)
              let med := pyOrTxt (get_medicine_text meds lc) NO_MED_MSG
              let reply := tl "Based on your previous condition (**" ++
                kbTitle kb lc ++
                tl "**), here are precautions and non-prescription suggestions:\n" ++
                prec ++ tl "\n\nNon-prescription suggestions:\n" ++ med ++
                tl "\n\n" ++ DISCLAIMER
              { reply := reply, history := add_to_history hist msg reply (some lc),
                candidates := none }
            | none =>
              let prec := get_precaution_text kb none
              let reply := tl "I don\x27t know which condition you mean. Here are general precautions you can follow while you tell me the specific condition:\n" ++
                prec ++
                tl "\n\nPlease say the condition (e.g., \x27for fever\x27) or list symptoms (e.g., \x27fever, cough\x27).\n\n" ++
                DISCLAIMER
              { reply := reply, history := add_to_history hist msg reply none,
                candidates := none }
        else if symptom_mode then
          let parts := splitSymptoms msg
          let cands := symptom_checker (buildIndex kb) parts 6
          let cand_structs := cands.map (fun c => (c.1, kbTitle kb c.1, c.2))
          let reply := cand_structs.foldl
            (fun acc c => acc ++ tl "- " ++ c.2.1 ++ tl " (score: " ++
              renderScore c.2.2 ++ tl ")\n")
            (tl "Possible matches (symptom-checker):\n")
          { reply := reply, history := add_to_history hist msg reply none,
            candidates := some cand_structs }
        else
          match find_condition_simple (buildIndex kb) msg with
          | (some cond, _) =>
            let info := kbEntry kb cond
            let med_info := get_medicine_text meds cond
            let base := tl "**" ++ info.title ++ tl "**\nSymptoms: " ++
              joinTxt (tl ", ") info.symptoms ++ tl "\n\n" ++ info.description ++
              tl "\n\nWhen to seek care: " ++ info.when_to_seek_care.getD []
            let reply :=
              match med_info with
              | some m =>
                if m == [] then base
                else base ++ tl "\n\nPossible non-prescription options:\n" ++ m
              | none => base
            { reply := reply, history := add_to_history hist msg reply (some cond),
              candidates := none }
          | (none, _) =>
            { reply := FALLBACK_REPLY,
              history := add_to_history hist msg FALLBACK_REPLY none,
              candidates := none }

/-! ### Helper lemmas: lowercasing, stripping, substring search, sorting. -/

theorem char_toNat_ofNat (m : Nat) (hv : m.isValidChar) : (Char.ofNat m).toNat = m := by
  unfold Char.ofNat
  rw [dif_pos hv]
  unfold Char.ofNatAux
  simp [Char.toNat, UInt32.toNat]

theorem char_isWhitespace_of_toNat (d : Char) (h1 : d.toNat ≠ 32) (h2 : d.toNat ≠ 9)
    (h3 : d.toNat ≠ 13) (h4 : d.toNat ≠ 10) : d.isWhitespace = false := by
  have e1 : d ≠ ' ' := fun he => h1 (by rw [he]; decide)
  have e2 : d ≠ '\t' := fun he => h2 (by rw [he]; decide)
  have e3 : d ≠ '\x0d' := fun he => h3 (by rw [he]; decide)
  have e4 : d ≠ '\n' := fun he => h4 (by rw [he]; decide)
  simp [Char.isWhitespace, e1, e2, e3, e4]

/-- `str.lower()` maps whitespace to whitespace and non-whitespace to
non-whitespace (ASCII model). -/
theorem isWhitespace_toLower (c : Char) : (Char.toLower c).isWhitespace = c.isWhitespace := by
  unfold Char.toLower
  by_cases h : c.toNat ≥ 65 ∧ c.toNat ≤ 90
  · rw [if_pos h]
    have hv : (c.toNat + 32).isValidChar := Or.inl (by omega)
    have ht : (Char.ofNat (c.toNat + 32)).toNat = c.toNat + 32 := char_toNat_ofNat _ hv
    rw [char_isWhitespace_of_toNat _ (by omega) (by omega) (by omega) (by omega),
        char_isWhitespace_of_toNat c (by omega) (by omega) (by omega) (by omega)]
  · rw [if_neg h]

/-- Lowercasing commutes with stripping. -/
theorem lowerTxt_pyStrip (l : Txt) : lowerTxt (pyStrip l) = pyStrip (lowerTxt l) := by
  unfold lowerTxt pyStrip
  have hws : (Char.isWhitespace ∘ Char.toLower) = Char.isWhitespace := by
    funext c; exact isWhitespace_toLower c
  rw [List.dropWhile_map, hws, ← List.map_reverse, List.dropWhile_map, hws, List.map_reverse]

/-- A contained text whose first character is not whitespace survives
dropping leading whitespace. -/
theorem isInfix_dropWhile (c : Char) (p' l : Txt) (hc : ¬ c.isWhitespace = true)
    (h : (c :: p') <:+: l) : (c :: p') <:+: l.dropWhile Char.isWhitespace := by
  induction l with
  | nil => exact absurd (List.eq_nil_of_infix_nil h) (by simp)
  | cons d l' ih =>
    by_cases hd : d.isWhitespace = true
    · rw [List.dropWhile_cons, if_pos hd]
      apply ih
      rcases List.infix_cons_iff.mp h with hpre | hmid
      · exfalso
        obtain ⟨t, ht⟩ := hpre
        rw [List.cons_append] at ht
        injection ht with hcd _
        exact hc (by rw [hcd]; exact hd)
      · exact hmid
    · rw [List.dropWhile_cons, if_neg hd]
      exact h

/-- A contained text whose first and last characters are not whitespace
survives `str.strip()`. -/
theorem isInfix_pyStrip {p l : Txt}
    (hform : ∃ c q, p = c :: q ∧ ¬ c.isWhitespace = true)
    (hlast : ∃ c q, p.reverse = c :: q ∧ ¬ c.isWhitespace = true)
    (h : p <:+: l) : p <:+: pyStrip l := by
  obtain ⟨c, q, rfl, hc⟩ := hform
  unfold pyStrip
  have s1 : (c :: q) <:+: l.dropWhile Char.isWhitespace := isInfix_dropWhile c q l hc h
  have s2 : (c :: q).reverse <:+: (l.dropWhile Char.isWhitespace).reverse :=
    List.reverse_infix.mpr s1
  obtain ⟨c2, q2, hrev, hc2⟩ := hlast
  rw [hrev] at s2
  have s3 : (c2 :: q2) <:+:
      ((l.dropWhile Char.isWhitespace).reverse).dropWhile Char.isWhitespace :=
    isInfix_dropWhile c2 q2 _ hc2 s2
  have s4 := List.reverse_infix.mpr s3
  rw [← hrev, List.reverse_reverse] at s4
  exact s4

/-- The stripped text is contained in the original. -/
theorem pyStrip_isInfix (l : Txt) : pyStrip l <:+: l := by
  unfold pyStrip
  have h1 : (l.dropWhile Char.isWhitespace).reverse.dropWhile Char.isWhitespace <:+
      (l.dropWhile Char.isWhitespace).reverse := List.dropWhile_suffix _
  have h2 : ((l.dropWhile Char.isWhitespace).reverse.dropWhile Char.isWhitespace).reverse <:+:
      ((l.dropWhile Char.isWhitespace).reverse).reverse := List.reverse_infix.mpr h1.isInfix
  rw [List.reverse_reverse] at h2
  exact h2.trans (List.dropWhile_suffix _).isInfix

/-- `find?` only depends on the predicate's values on the list. -/
theorem find?_congr_mem {α : Type} (l : List α) (p q : α → Bool)
    (h : ∀ x ∈ l, p x = q x) : l.find? p = l.find? q := by
  induction l with
  | nil => rfl
  | cons a r ih =>
    have ha := h a (List.mem_cons_self a r)
    by_cases hp : p a = true
    · rw [List.find?_cons_of_pos r hp, List.find?_cons_of_pos r (by rw [← ha]; exact hp)]
    · rw [List.find?_cons_of_neg r hp,
        List.find?_cons_of_neg r (by rw [← ha]; exact hp)]
      exact ih (fun x hx => h x (List.mem_cons_of_mem _ hx))

/-- From decidable head data to the head-cons shape. -/
theorem shape_of_headD {p : Txt} (hne : p ≠ []) (hh : (p.headD 'x').isWhitespace = false) :
    ∃ c q, p = c :: q ∧ ¬ c.isWhitespace = true := by
  cases p with
  | nil => exact absurd rfl hne
  | cons c q => exact ⟨c, q, rfl, by simpa using hh⟩

/-- The head of the stable descending sort is the first element of the
input achieving the maximal score. -/
theorem sortDesc_head (l : List (Txt × ℚ)) (hne : l ≠ []) :
    ∃ e, (sortDesc l).head? = some e ∧ e ∈ l ∧ (∀ x ∈ l, x.2 ≤ e.2) ∧
      l.find? (fun x => x.2 == e.2) = some e := by
  induction l with
  | nil => exact absurd rfl hne
  | cons x r ih =>
    cases r with
    | nil =>
      refine ⟨x, rfl, List.mem_singleton.mpr rfl, ?_, ?_⟩
      · intro z hz; rw [List.mem_singleton.mp hz]
      · simp
    | cons y ys =>
      obtain ⟨e, he1, he2, he3, he4⟩ := ih (by simp)
      obtain ⟨tail, htail⟩ : ∃ tail, sortDesc (y :: ys) = e :: tail := by
        cases hs : sortDesc (y :: ys) with
        | nil => rw [hs] at he1; simp at he1
        | cons a as =>
          rw [hs] at he1
          simp at he1
          exact ⟨as, by rw [he1]⟩
      by_cases hcmp : e.2 ≤ x.2
      · refine ⟨x, ?_, List.mem_cons_self x (y :: ys), ?_, ?_⟩
        · show (insertDesc x (sortDesc (y :: ys))).head? = some x
          rw [htail]
          show (if e.2 ≤ x.2 then x :: e :: tail else e :: insertDesc x tail).head? = some x
          rw [if_pos hcmp]
          rfl
        · intro z hz
          rcases List.mem_cons.mp hz with h | h
          · rw [h]
          · exact le_trans (he3 z h) hcmp
        · exact List.find?_cons_of_pos _ (by simp)
      · have hlt : x.2 < e.2 := not_le.mp hcmp
        refine ⟨e, ?_, List.mem_cons_of_mem _ he2, ?_, ?_⟩
        · show (insertDesc x (sortDesc (y :: ys))).head? = some e
          rw [htail]
          show (if e.2 ≤ x.2 then x :: e :: tail else e :: insertDesc x tail).head? = some e
          rw [if_neg hcmp]
          rfl
        · intro z hz
          rcases List.mem_cons.mp hz with h | h
          · rw [h]; exact le_of_lt hlt
          · exact he3 z h
        · rw [List.find?_cons_of_neg _ (by simpa using ne_of_lt hlt)]
          exact he4

/-- Tier 1 short-circuits `find_condition_simple`. -/
theorem find_condition_simple_tier1 (idx : List IdxCond) (msg : Txt) (c : IdxCond)
    (h : idx.find? (fun c => decide (c.key <:+: lowerTxt msg)) = some c) :
    find_condition_simple idx msg = (some c.key, 1) := by
  simp only [find_condition_simple]
  rw [h]

/-- Tier 2 fires when tier 1 finds no key. -/
theorem find_condition_simple_tier2 (idx : List IdxCond) (msg : Txt) (c : IdxCond)
    (h1 : idx.find? (fun c => decide (c.key <:+: lowerTxt msg)) = none)
    (h2 : idx.find? (fun c => c.keywords.any
      (fun kw => !(kw == []) && decide (kw <:+: lowerTxt msg))) = some c) :
    find_condition_simple idx msg = (some c.key, 1) := by
  simp only [find_condition_simple]
  rw [h1, h2]

/-- The fuzzy tier fires when tiers 1 and 2 find nothing. -/
theorem find_condition_simple_tier3 (idx : List IdxCond) (msg : Txt)
    (h1 : idx.find? (fun c => decide (c.key <:+: lowerTxt msg)) = none)
    (h2 : idx.find? (fun c => c.keywords.any
      (fun kw => !(kw == []) && decide (kw <:+: lowerTxt msg))) = none) :
    find_condition_simple idx msg = fuzzy_fallback idx (lowerTxt msg) := by
  simp only [find_condition_simple]
  rw [h1, h2]

/-- Case analysis of `find_condition_simple`: which tier fires. -/
theorem find_condition_simple_cases (idx : List IdxCond) (msg : Txt) :
    (∃ c, idx.find? (fun c => decide (c.key <:+: lowerTxt msg)) = some c ∧
      find_condition_simple idx msg = (some c.key, 1)) ∨
    (idx.find? (fun c => decide (c.key <:+: lowerTxt msg)) = none ∧
      ∃ c, idx.find? (fun c => c.keywords.any
          (fun kw => !(kw == []) && decide (kw <:+: lowerTxt msg))) = some c ∧
        find_condition_simple idx msg = (some c.key, 1)) ∨
    (idx.find? (fun c => decide (c.key <:+: lowerTxt msg)) = none ∧
      idx.find? (fun c => c.keywords.any
        (fun kw => !(kw == []) && decide (kw <:+: lowerTxt msg))) = none ∧
      find_condition_simple idx msg = fuzzy_fallback idx (lowerTxt msg)) := by
  cases h1 : idx.find? (fun c => decide (c.key <:+: lowerTxt msg)) with
  | some c => exact Or.inl ⟨c, rfl, find_condition_simple_tier1 idx msg c h1⟩

  | none =>
    cases h2 : idx.find? (fun c => c.keywords.any
        (fun kw => !(kw == []) && decide (kw <:+: lowerTxt msg))) with
    | some c => exact Or.inr (Or.inl ⟨rfl, c, rfl, find_condition_simple_tier2 idx msg c h1 h2⟩)
    | none => exact Or.inr (Or.inr ⟨rfl, rfl, find_condition_simple_tier3 idx msg h1 h2⟩)

/-- The fuzzy tier accepts only scores in `[0.45, 1]`. -/
theorem fuzzy_fallback_bounds (idx : List IdxCond) (t : Txt) (k : Txt) (s : ℚ)
    (h : fuzzy_fallback idx t = (some k, s)) : (45:ℚ)/100 ≤ s ∧ s ≤ 1 := by
  simp only [fuzzy_fallback] at h
  cases hs : sortDesc (idx.map (fun c => (c.key, ratioOf t (combinedVocab c)))) with
  | nil => rw [hs] at h; exact absurd (Prod.ext_iff.mp h).1 (by simp)
  | cons top rest =>
    rw [hs] at h
    dsimp only at h
    by_cases hthr : (45:ℚ)/100 ≤ top.2
    · rw [if_pos hthr] at h
      obtain ⟨h1, h2⟩ := Prod.ext_iff.mp h
      simp only at h1 h2
      have hnil : idx.map (fun c => (c.key, ratioOf t (combinedVocab c))) ≠ [] := by
        intro hc
        rw [hc] at hs
        exact absurd hs (by simp [sortDesc])
      obtain ⟨e, he1, he2, _, _⟩ := sortDesc_head _ hnil
      rw [hs] at he1
      have he : e = top := by simpa using he1.symm
      obtain ⟨c, _, hcEq⟩ := List.mem_map.mp (he ▸ he2)
      have : top.2 = ratioOf t (combinedVocab c) := by rw [← hcEq]
      rw [← h2, this]
      exact ⟨by rw [← this, h2]; exact h2 ▸ hthr, ratioOf_le_one _ _⟩
    · rw [if_neg hthr] at h
      exact absurd (Prod.ext_iff.mp h).1 (by simp)

/-- On no-match the fuzzy tier returns score exactly `0.0`. -/
theorem fuzzy_fallback_none (idx : List IdxCond) (t : Txt) (s : ℚ)
    (h : fuzzy_fallback idx t = (none, s)) : s = 0 := by
  simp only [fuzzy_fallback] at h
  cases hs : sortDesc (idx.map (fun c => (c.key, ratioOf t (combinedVocab c)))) with
  | nil => rw [hs] at h; exact ((Prod.ext_iff.mp h).2).symm
  | cons top rest =>
    rw [hs] at h
    dsimp only at h
    by_cases hthr : (45:ℚ)/100 ≤ top.2
    · rw [if_pos hthr] at h
      exact absurd (Prod.ext_iff.mp h).1 (by simp)
    · rw [if_neg hthr] at h
      exact ((Prod.ext_iff.mp h).2).symm

/-! ### Claims -/

/-- C5: for every condition key `K` in the knowledge base, a message whose
lowercased text contains `K` as a substring resolves in the first tier of
`find_condition_simple` to `(K, 1.0)`; when several keys are contained the
first key in the knowledge base's declared iteration order (`find?`) wins. -/
theorem C5_direct_key_match (idx : List IdxCond) (msg : Txt)
    (h : ∃ c ∈ idx, c.key <:+: lowerTxt msg) :
    ∃ c₀, idx.find? (fun c => decide (c.key <:+: lowerTxt msg)) = some c₀ ∧
      c₀.key <:+: lowerTxt msg ∧
      find_condition_simple idx msg = (some c₀.key, 1) := by
  obtain ⟨c, hc, hinf⟩ := h
  have hsome : (idx.find? (fun c => decide (c.key <:+: lowerTxt msg))).isSome := by
    rw [List.find?_isSome]
    exact ⟨c, hc, by simpa using hinf⟩
  obtain ⟨c₀, hc₀⟩ := Option.isSome_iff_exists.mp hsome
  exact ⟨c₀, hc₀, by simpa using List.find?_some hc₀,
    find_condition_simple_tier1 idx msg c₀ hc₀⟩

/-- Witness for C5 at a concrete knowledge base and message. -/
theorem C5_witness :
    ∃ c₀, ([⟨tl "fever", tl "Fever", [tl "fever"]⟩] : List IdxCond).find?
        (fun c => decide (c.key <:+: lowerTxt (tl "I have FEVER"))) = some c₀ ∧
      c₀.key <:+: lowerTxt (tl "I have FEVER") ∧
      find_condition_simple ([⟨tl "fever", tl "Fever", [tl "fever"]⟩] : List IdxCond)
        (tl "I have FEVER") = (some c₀.key, 1) :=
  C5_direct_key_match _ _ (by decide)

/-- C10: whenever `find_condition_simple` returns a condition, the score is
in `[0.45, 1]`; tiers 1 and 2 return exactly `1.0`; on no-match the
returned score is exactly `0.0`. -/
theorem C10_returned_scores (idx : List IdxCond) (msg : Txt) :
    (∀ k s, find_condition_simple idx msg = (some k, s) → (45:ℚ)/100 ≤ s ∧ s ≤ 1) ∧
    (∀ s, find_condition_simple idx msg = (none, s) → s = 0) ∧
    (((idx.find? (fun c => decide (c.key <:+: lowerTxt msg))).isSome ∨
        (idx.find? (fun c => c.keywords.any
          (fun kw => !(kw == []) && decide (kw <:+: lowerTxt msg)))).isSome) →
      (find_condition_simple idx msg).2 = 1) := by
  have h45 : (45:ℚ)/100 ≤ 1 := by norm_num
  rcases find_condition_simple_cases idx msg with ⟨c, hf, he⟩ | ⟨h1, c, hf, he⟩ | ⟨h1, h2, he⟩
  · refine ⟨?_, ?_, ?_⟩
    · intro k s hs
      rw [he, Prod.mk.injEq] at hs
      obtain ⟨-, h2'⟩ := hs
      exact ⟨h2' ▸ h45, le_of_eq h2'.symm⟩
    · intro s hs
      rw [he] at hs
      simp at hs
    · intro _
      rw [he]
  · refine ⟨?_, ?_, ?_⟩
    · intro k s hs
      rw [he, Prod.mk.injEq] at hs
      obtain ⟨-, h2'⟩ := hs
      exact ⟨h2' ▸ h45, le_of_eq h2'.symm⟩
    · intro s hs
      rw [he] at hs
      simp at hs
    · intro _
      rw [he]
  · refine ⟨?_, ?_, ?_⟩
    · intro k s hs
      rw [he] at hs
      exact fuzzy_fallback_bounds idx (lowerTxt msg) k s hs
    · intro s hs
      rw [he] at hs
      exact fuzzy_fallback_none idx (lowerTxt msg) s hs
    · intro hor
      exfalso
      rcases hor with hx | hx
      · rw [h1] at hx
        simp at hx
      · rw [h2] at hx
        simp at hx

/-- Witness for C10 at a concrete knowledge base and message (tier 1). -/
theorem C10_witness : (45:ℚ)/100 ≤ (1:ℚ) ∧ (1:ℚ) ≤ (1:ℚ) :=
  (C10_returned_scores [⟨tl "fever", tl "Fever", [tl "fever"]⟩] (tl "fever")).1
    (tl "fever") 1 (by decide)

/-- A stable sort of a non-empty list is non-empty. -/
theorem sortDesc_ne_nil (l : List (Txt × ℚ)) (h : l ≠ []) : sortDesc l ≠ [] := by
  obtain ⟨e, he1, -, -, -⟩ := sortDesc_head l h
  intro hc
  rw [hc] at he1
  simp at he1

/-- C3: the fuzzy tier returns `(k, r)` exactly when `r` is the maximal
similarity ratio over the index, `r` is at least `0.45` (equality
accepted), and `k` is the key of the first condition in iteration order
achieving `r`; it returns no-match with score `0` exactly when every ratio
is strictly below `0.45` (or the index is empty). -/
theorem C3_fuzzy_selection (idx : List IdxCond) (t : Txt) :
    (∀ k r, fuzzy_fallback idx t = (some k, r) ↔
      ((∀ c ∈ idx, ratioOf t (combinedVocab c) ≤ r) ∧
        (idx.find? (fun c => ratioOf t (combinedVocab c) == r)).map IdxCond.key = some k ∧
        (45:ℚ)/100 ≤ r)) ∧
    (∀ r, fuzzy_fallback idx t = (none, r) ↔
      (r = 0 ∧ ∀ c ∈ idx, ratioOf t (combinedVocab c) < (45:ℚ)/100)) := by
  have hmapfind : ∀ r : ℚ,
      (idx.map (fun c => (c.key, ratioOf t (combinedVocab c)))).find? (fun x => x.2 == r) =
        ((idx.find? (fun c => ratioOf t (combinedVocab c) == r)).map
          (fun c => (c.key, ratioOf t (combinedVocab c)))) := by
    intro r
    rw [List.find?_map]
    rfl
  constructor
  · intro k r
    constructor
    · intro h
      cases hs : sortDesc (idx.map (fun c => (c.key, ratioOf t (combinedVocab c)))) with
      | nil =>
        have hz : fuzzy_fallback idx t = (none, 0) := by
          simp only [fuzzy_fallback]
          rw [hs]
        rw [hz] at h
        simp at h
      | cons top rest =>
        have hff : fuzzy_fallback idx t =
            if (45:ℚ)/100 ≤ top.2 then (some top.1, top.2) else (none, 0) := by
          simp only [fuzzy_fallback]
          rw [hs]
        rw [hff] at h
        by_cases hthr : (45:ℚ)/100 ≤ top.2
        · rw [if_pos hthr, Prod.mk.injEq] at h
          obtain ⟨hk, hr⟩ := h
          have hnil : idx.map (fun c => (c.key, ratioOf t (combinedVocab c))) ≠ [] := by
            intro hc
            rw [hc] at hs
            simp [sortDesc] at hs
          obtain ⟨e, he1, he2, he3, he4⟩ := sortDesc_head _ hnil
          rw [hs] at he1
          have hetop : e = top := by simpa using he1.symm
          rw [hetop] at he2 he3 he4
          refine ⟨?_, ?_, hr ▸ hthr⟩
          · intro c hc
            have hmem : (c.key, ratioOf t (combinedVocab c)) ∈
                idx.map (fun c => (c.key, ratioOf t (combinedVocab c))) :=
              List.mem_map.mpr ⟨c, hc, rfl⟩
            have hle := he3 _ hmem
            rw [hr] at hle
            exact hle
          · rw [← hr]
            have h4 := he4
            rw [hmapfind top.2] at h4
            obtain ⟨c₁, hc₁, hfc₁⟩ := Option.map_eq_some'.mp h4
            rw [hc₁]
            simp only [Option.map_some']
            have hck : c₁.key = top.1 := congrArg Prod.fst hfc₁
            rw [hck]
            exact hk
        · rw [if_neg hthr] at h
          simp at h
    · rintro ⟨hub, hfind, hthr⟩
      obtain ⟨c₁, hc₁, hkey⟩ := Option.map_eq_some'.mp hfind
      have hrc₁ : ratioOf t (combinedVocab c₁) = r := by
        have := List.find?_some hc₁
        simpa using this
      have hmem : c₁ ∈ idx := List.mem_of_find?_eq_some hc₁
      have hnil : idx.map (fun c => (c.key, ratioOf t (combinedVocab c))) ≠ [] := by
        intro hc
        rw [List.map_eq_nil_iff] at hc
        rw [hc] at hmem
        simp at hmem
      obtain ⟨e, he1, he2, he3, he4⟩ := sortDesc_head _ hnil
      have her : e.2 = r := by
        have hle1 : e.2 ≤ r := by
          obtain ⟨ce, hce, hfe⟩ := List.mem_map.mp he2
          rw [← hfe]
          exact hub ce hce
        have hle2 : r ≤ e.2 := by
          have hm : (c₁.key, ratioOf t (combinedVocab c₁)) ∈
              idx.map (fun c => (c.key, ratioOf t (combinedVocab c))) :=
            List.mem_map.mpr ⟨c₁, hmem, rfl⟩
          have := he3 _ hm
          simpa [hrc₁] using this
        exact le_antisymm hle1 hle2
      have h4 := he4
      rw [her, hmapfind r, hc₁] at h4
      simp only [Option.map_some'] at h4
      have he_eq : e = (c₁.key, ratioOf t (combinedVocab c₁)) := (Option.some_inj.mp h4).symm
      obtain ⟨rest, hs⟩ : ∃ rest, sortDesc
          (idx.map (fun c => (c.key, ratioOf t (combinedVocab c)))) = e :: rest := by
        cases hsd : sortDesc (idx.map (fun c => (c.key, ratioOf t (combinedVocab c)))) with
        | nil => rw [hsd] at he1; simp at he1
        | cons a as =>
          rw [hsd] at he1
          simp at he1
          exact ⟨as, by rw [he1]⟩
      have hff : fuzzy_fallback idx t =
          if (45:ℚ)/100 ≤ e.2 then (some e.1, e.2) else (none, 0) := by
        simp only [fuzzy_fallback]
        rw [hs]
      rw [hff, if_pos (by rw [her]; exact hthr)]
      have : ((some e.1, e.2) : Option Txt × ℚ) = (some k, r) := by
        rw [he_eq]
        simp [hkey, hrc₁]
      exact this
  · intro r
    constructor
    · intro h
      cases hs : sortDesc (idx.map (fun c => (c.key, ratioOf t (combinedVocab c)))) with
      | nil =>
        have hz : fuzzy_fallback idx t = (none, 0) := by
          simp only [fuzzy_fallback]
          rw [hs]
        rw [hz, Prod.mk.injEq] at h
        obtain ⟨-, hr⟩ := h
        have hidx : idx = [] := by
          by_contra hne
          have hsc : idx.map (fun c => (c.key, ratioOf t (combinedVocab c))) ≠ [] := by
            simpa using hne
          exact sortDesc_ne_nil _ hsc hs
        refine ⟨hr.symm, ?_⟩
        rw [hidx]
        intro c hc
        simp at hc
      | cons top rest =>
        have hff : fuzzy_fallback idx t =
            if (45:ℚ)/100 ≤ top.2 then (some top.1, top.2) else (none, 0) := by
          simp only [fuzzy_fallback]
          rw [hs]
        rw [hff] at h
        by_cases hthr : (45:ℚ)/100 ≤ top.2
        · rw [if_pos hthr] at h
          simp at h
        · rw [if_neg hthr, Prod.mk.injEq] at h
          obtain ⟨-, hr⟩ := h
          refine ⟨hr.symm, ?_⟩
          intro c hc
          have hnil : idx.map (fun c => (c.key, ratioOf t (combinedVocab c))) ≠ [] := by
            intro hcn
            rw [hcn] at hs
            simp [sortDesc] at hs
          obtain ⟨e, he1, he2, he3, he4⟩ := sortDesc_head _ hnil
          rw [hs] at he1
          have hetop : e = top := by simpa using he1.symm
          have hmem : (c.key, ratioOf t (combinedVocab c)) ∈
              idx.map (fun c => (c.key, ratioOf t (combinedVocab c))) :=
            List.mem_map.mpr ⟨c, hc, rfl⟩
          have hle := he3 _ hmem
          rw [hetop] at hle
          calc ratioOf t (combinedVocab c) ≤ top.2 := hle
            _ < (45:ℚ)/100 := not_le.mp hthr
    · rintro ⟨hr, hlt⟩
      subst hr
      cases hs : sortDesc (idx.map (fun c => (c.key, ratioOf t (combinedVocab c)))) with
      | nil =>
        simp only [fuzzy_fallback]
        rw [hs]
      | cons top rest =>
        have hnil : idx.map (fun c => (c.key, ratioOf t (combinedVocab c))) ≠ [] := by
          intro hc
          rw [hc] at hs
          simp [sortDesc] at hs
        obtain ⟨e, he1, he2, he3, he4⟩ := sortDesc_head _ hnil
        rw [hs] at he1
        have hetop : e = top := by simpa using he1.symm
        have htop_lt : top.2 < (45:ℚ)/100 := by
          obtain ⟨ce, hce, hfe⟩ := List.mem_map.mp he2
          rw [← hetop, ← hfe]
          exact hlt ce hce
        simp only [fuzzy_fallback]
        rw [hs]
        dsimp only
        rw [if_neg (not_le.mpr htop_lt)]

/-- Every emergency phrase is non-empty and starts and ends with a
non-whitespace character. -/
theorem emergency_signs_shape : ∀ p ∈ EMERGENCY_SIGNS, p ≠ [] ∧
    (p.headD 'x').isWhitespace = false ∧
    ((p.reverse).headD 'x').isWhitespace = false := by decide

/-- C1: a message whose lowercased text contains an emergency phrase makes
the router return the emergency warning reply for the first matching
phrase in `EMERGENCY_SIGNS` order, appending that turn with a null
condition — it never reaches the smalltalk, precaution/medicine,
symptom-mode, condition-detail or fallback stages, whatever the smalltalk
matcher, score renderer, knowledge base, catalog, history or symptom-mode
flag are, and even when the message also names a condition key. -/
theorem C1_emergency_first (kb : KBase) (meds : Catalog) (smalltalk : Txt → Option Txt)
    (renderScore : ℚ → Txt) (hist : List DialogTurn) (msgRaw : Txt) (symptom_mode : Bool)
    (h : ∃ p ∈ EMERGENCY_SIGNS, p <:+: lowerTxt msgRaw) :
    ∃ p₀, EMERGENCY_SIGNS.find? (fun s => decide (s <:+: lowerTxt msgRaw)) = some p₀ ∧
      chat kb meds smalltalk renderScore hist msgRaw symptom_mode =
        { reply := emergencyReply p₀,
          history := hist ++ [⟨pyStrip msgRaw, emergencyReply p₀, none⟩],
          candidates := none } := by
  have hiff : ∀ p ∈ EMERGENCY_SIGNS,
      (p <:+: lowerTxt msgRaw ↔ p <:+: lowerTxt (pyStrip msgRaw)) := by
    intro p hp
    obtain ⟨hne, hh, hl⟩ := emergency_signs_shape p hp
    constructor
    · intro hin
      rw [lowerTxt_pyStrip]
      exact isInfix_pyStrip (shape_of_headD hne hh)
        (shape_of_headD (by simpa using hne) hl) hin
    · intro hin
      have hsub : lowerTxt (pyStrip msgRaw) <:+: lowerTxt msgRaw := by
        rw [lowerTxt_pyStrip]
        exact pyStrip_isInfix (lowerTxt msgRaw)
      exact hin.trans hsub
  obtain ⟨p, hp, hpin⟩ := h
  have hsome : (EMERGENCY_SIGNS.find? (fun s => decide (s <:+: lowerTxt msgRaw))).isSome := by
    rw [List.find?_isSome]
    exact ⟨p, hp, by simpa using hpin⟩
  obtain ⟨p₀, hp₀⟩ := Option.isSome_iff_exists.mp hsome
  have hcongr : EMERGENCY_SIGNS.find? (fun s => decide (s <:+: lowerTxt msgRaw)) =
      EMERGENCY_SIGNS.find? (fun s => decide (s <:+: lowerTxt (pyStrip msgRaw))) :=
    find?_congr_mem _ _ _ (fun x hx => decide_eq_decide.mpr (hiff x hx))
  have hp₀' : EMERGENCY_SIGNS.find?
      (fun s => decide (s <:+: lowerTxt (pyStrip msgRaw))) = some p₀ := by
    rw [← hcongr]
    exact hp₀
  have hem : check_emergency (pyStrip msgRaw) = (true, some p₀) := by
    unfold check_emergency
    rw [hp₀']
  have hp₀mem : p₀ ∈ EMERGENCY_SIGNS := List.mem_of_find?_eq_some hp₀
  have hp₀in : p₀ <:+: lowerTxt (pyStrip msgRaw) := by
    have := List.find?_some hp₀'
    simpa using this
  have hp₀ne : p₀ ≠ [] := (emergency_signs_shape p₀ hp₀mem).1
  have hmsgne : ¬ (pyStrip msgRaw = []) := by
    intro hc
    rw [hc] at hp₀in
    exact hp₀ne (List.eq_nil_of_infix_nil (by simpa [lowerTxt] using hp₀in))
  refine ⟨p₀, hp₀, ?_⟩
  simp only [chat]
  rw [if_neg hmsgne, hem]
  simp [add_to_history]

/-- Witness for C1: the end-to-end "chest pain" message. -/
theorem C1_witness :
    ∃ p₀, EMERGENCY_SIGNS.find?
        (fun s => decide (s <:+: lowerTxt (tl "I have chest pain and fever"))) = some p₀ ∧
      chat [] [] (fun _ => none) (fun _ => []) [] (tl "I have chest pain and fever") false =
        { reply := emergencyReply p₀,
          history := [] ++ [⟨pyStrip (tl "I have chest pain and fever"), emergencyReply p₀, none⟩],
          candidates := none } :=
  C1_emergency_first [] [] (fun _ => none) (fun _ => []) []
    (tl "I have chest pain and fever") false (by decide)

/-- C2 counterexample: with a single keyword `"fever"` and the two symptom
phrases `"fever"` and `"feverish"`, both phrases score a hit, so the score
is `2/1 = 2`, outside `[0,1]` — and `symptom_checker` surfaces it
unclamped. -/
theorem C2_counterexample :
    scoreOf ⟨tl "c1", tl "Fever", [tl "fever"]⟩ [tl "fever", tl "feverish"] = 2 ∧
    ¬ (scoreOf ⟨tl "c1", tl "Fever", [tl "fever"]⟩ [tl "fever", tl "feverish"] ≤ 1) ∧
    symptom_checker [⟨tl "c1", tl "Fever", [tl "fever"]⟩] [tl "fever", tl "feverish"] 5 =
      [(tl "c1", 2)] := by
  have hkw : kwSetOf ⟨tl "c1", tl "Fever", [tl "fever"]⟩ = [tl "fever"] := by decide
  have hhits : hitsOf [tl "fever"] [tl "fever", tl "feverish"] = 2 := by decide
  have hscore : scoreOf ⟨tl "c1", tl "Fever", [tl "fever"]⟩ [tl "fever", tl "feverish"] = 2 := by
    unfold scoreOf
    rw [hkw, hhits]
    norm_num
  refine ⟨hscore, by rw [hscore]; norm_num, ?_⟩
  have hround : round3 (2:ℚ) = 2 := by
    unfold round3 roundHalfEven
    norm_num
  have hf : (if kwSetOf ⟨tl "c1", tl "Fever", [tl "fever"]⟩ = [] then none
      else some ((⟨tl "c1", tl "Fever", [tl "fever"]⟩ : IdxCond).key,
        scoreOf ⟨tl "c1", tl "Fever", [tl "fever"]⟩ [tl "fever", tl "feverish"])) =
      some (tl "c1", (2:ℚ)) := by
    rw [if_neg (by rw [hkw]; simp), hscore]
  have h1 : ([⟨tl "c1", tl "Fever", [tl "fever"]⟩] : List IdxCond).filterMap (fun c =>
      if kwSetOf c = [] then none
      else some (c.key, scoreOf c [tl "fever", tl "feverish"])) = [(tl "c1", (2:ℚ))] := by
    rw [List.filterMap_cons, hf, List.filterMap_nil]
  simp only [symptom_checker]
  rw [h1]
  have h2 : sortDesc [(tl "c1", (2:ℚ))] = [(tl "c1", (2:ℚ))] := rfl
  rw [h2]
  have h3 : ([(tl "c1", (2:ℚ))]).filter (fun x => decide (0 < x.2)) = [(tl "c1", (2:ℚ))] := by
    simp
  rw [h3]
  simp [hround]

/-- C2 amended: the score `hits / max(1, |kw_set|)` is nonnegative and at
most `|symptom list| / max(1, |kw_set|)` (so it exceeds 1 exactly when
more phrases than keywords register hits); it stays in `[0,1]` whenever
the symptom list is no longer than the keyword set; and a symptom list
that is exactly an enumeration of a non-empty keyword set scores 1.0. -/
theorem C2_amended_score_bounds (c : IdxCond) (syms : List Txt) :
    0 ≤ scoreOf c syms ∧
    scoreOf c syms ≤ (syms.length : ℚ) / ((max 1 (kwSetOf c).length : Nat) : ℚ) ∧
    (syms.length ≤ (kwSetOf c).length → scoreOf c syms ≤ 1) ∧
    (kwSetOf c ≠ [] → syms.Perm (kwSetOf c) → scoreOf c syms = 1) := by
  have hpos : (0:ℚ) < ((max 1 (kwSetOf c).length : Nat) : ℚ) := by
    have : 1 ≤ max 1 (kwSetOf c).length := le_max_left _ _
    exact_mod_cast Nat.lt_of_lt_of_le Nat.zero_lt_one this
  have hhits_le : hitsOf (kwSetOf c) syms ≤ syms.length := List.countP_le_length _
  refine ⟨?_, ?_, ?_, ?_⟩
  · unfold scoreOf
    positivity
  · unfold scoreOf
    have h1 : ((hitsOf (kwSetOf c) syms : Nat) : ℚ) ≤ (syms.length : ℚ) := by
      exact_mod_cast hhits_le
    exact (div_le_div_iff_of_pos_right hpos).mpr h1
  · intro hlen
    unfold scoreOf
    rw [div_le_one hpos]
    have : hitsOf (kwSetOf c) syms ≤ max 1 (kwSetOf c).length :=
      le_trans (le_trans hhits_le hlen) (le_max_right _ _)
    exact_mod_cast this
  · intro hne hperm
    have hcov : ∀ s ∈ syms, ((kwSetOf c).any (fun kw => decide (kw <:+: s))) = true := by
      intro s hs
      have hmem : s ∈ kwSetOf c := hperm.mem_iff.mp hs
      exact List.any_eq_true.mpr ⟨s, hmem, decide_eq_true (List.infix_refl s)⟩
    have hhits : hitsOf (kwSetOf c) syms = syms.length := by
      unfold hitsOf
      exact List.countP_eq_length.mpr hcov
    have hlen : syms.length = (kwSetOf c).length := hperm.length_eq
    have hmax : max 1 (kwSetOf c).length = (kwSetOf c).length := by
      have : 1 ≤ (kwSetOf c).length := by
        cases h : kwSetOf c with
        | nil => exact absurd h hne
        | cons a as => simp [h]
      omega
    unfold scoreOf
    rw [hhits, hlen, hmax]
    have hne' : (((kwSetOf c).length : Nat) : ℚ) ≠ 0 := by
      have : 1 ≤ (kwSetOf c).length := by
        cases h : kwSetOf c with
        | nil => exact absurd h hne
        | cons a as => simp [h]
      exact_mod_cast Nat.pos_iff_ne_zero.mp (Nat.lt_of_lt_of_le Nat.zero_lt_one this)
    exact div_self hne'

/-- Witness for the amended C2 at a concrete condition and symptom list. -/
theorem C2_witness :
    scoreOf ⟨tl "c", tl "Fever", [tl "fever", tl "chills"]⟩ [tl "chills", tl "fever"] = 1 :=
  (C2_amended_score_bounds ⟨tl "c", tl "Fever", [tl "fever", tl "chills"]⟩
    [tl "chills", tl "fever"]).2.2.2 (by decide) (by decide)

/-- C4 counterexample: a turn whose stored condition is the non-null empty
string is skipped (`if cond:` is Python truthiness), so the resolver
returns `None` instead of the stored non-null condition. -/
theorem C4_counterexample :
    last_matched_condition_from_history [tl "fever"]
      [⟨tl "u", tl "xyz", some []⟩] = none ∧
    (⟨tl "u", tl "xyz", some []⟩ : DialogTurn).condition ≠ none := by
  constructor
  · decide
  · simp

/-- C4 amended: the resolver walks the history newest-to-oldest; a turn
returns its stored condition when that condition is non-null AND non-empty
(Python truthiness), otherwise the first knowledge-base key contained in
the turn's lowercased bot text, otherwise the walk continues on the older
turns; the empty history resolves to `None`. -/
theorem C4_amended_resolution (keys : List Txt) (hist : List DialogTurn) (e : DialogTurn) :
    (last_matched_condition_from_history keys [] = none) ∧
    (∀ c, e.condition = some c → c ≠ [] →
      last_matched_condition_from_history keys (hist ++ [e]) = some c) ∧
    (pyTruthyOpt e.condition = false →
      ∀ k, keys.find? (fun k => decide (k <:+: lowerTxt e.bot)) = some k →
        last_matched_condition_from_history keys (hist ++ [e]) = some k) ∧
    (pyTruthyOpt e.condition = false →
      keys.find? (fun k => decide (k <:+: lowerTxt e.bot)) = none →
      last_matched_condition_from_history keys (hist ++ [e]) =
        last_matched_condition_from_history keys hist) := by
  have hrev : (hist ++ [e]).reverse = e :: hist.reverse := by simp
  refine ⟨rfl, ?_, ?_, ?_⟩
  · intro c hc hcne
    have htru : pyTruthyOpt e.condition = true := by
      rw [hc]
      simp [pyTruthyOpt, hcne]
    unfold last_matched_condition_from_history
    rw [hrev]
    simp only [lmcGo, htru, if_true, reduceIte]
    exact hc
  · intro hfal k hk
    unfold last_matched_condition_from_history
    rw [hrev]
    simp only [lmcGo, hfal]
    rw [hk]
    simp
  · intro hfal hnone
    unfold last_matched_condition_from_history
    rw [hrev]
    simp only [lmcGo, hfal]
    rw [hnone]
    simp

/-- Witness for the amended C4: the newest turn's stored condition wins. -/
theorem C4_witness :
    last_matched_condition_from_history []
      ([⟨tl "a", tl "b", none⟩] ++ [⟨tl "u", tl "b", some (tl "flu")⟩]) = some (tl "flu") :=
  (C4_amended_resolution [] [⟨tl "a", tl "b", none⟩] ⟨tl "u", tl "b", some (tl "flu")⟩).2.1
    (tl "flu") rfl (by decide)

/-- C6 counterexample: for the empty-string key, present in the knowledge
base but not curated, the guard `condition_key and condition_key in
MED_KB` fails (Python truthiness), so the generic no-key text is returned
instead of the synthesized tips the claim promises. -/
theorem C6_counterexample :
    (([] : Txt), (⟨tl "T", [], [], some (tl "w")⟩ : CondEntry)) ∈
      ([(([] : Txt), ⟨tl "T", [], [], some (tl "w")⟩)] : KBase) ∧
    PRECAUTION_MAP.find? (fun p => p.1 == ([] : Txt)) = none ∧
    get_precaution_text [(([] : Txt), ⟨tl "T", [], [], some (tl "w")⟩)] (some []) =
      bulletJoin (noCondTips ++ GENERIC_PRECAUTIONS) ∧
    get_precaution_text [(([] : Txt), ⟨tl "T", [], [], some (tl "w")⟩)] (some []) ≠
      bulletJoin (synthTips ⟨tl "T", [], [], some (tl "w")⟩ ++ GENERIC_PRECAUTIONS.take 1) := by
  refine ⟨by simp, by decide, rfl, by decide⟩

/-- C6 amended: curated keys get their curated tips plus the first two
generic tips; a non-empty key that is in the knowledge base but not
curated gets the two synthesized tips plus the first generic tip; no key
gets the two instructive lead-in tips plus all generic tips. -/
theorem C6_amended_precautions (kb : KBase) (k : Txt) :
    (∀ pr, PRECAUTION_MAP.find? (fun p => p.1 == k) = some pr →
      get_precaution_text kb (some k) = bulletJoin (pr.2 ++ GENERIC_PRECAUTIONS.take 2)) ∧
    (∀ pr, k ≠ [] → PRECAUTION_MAP.find? (fun p => p.1 == k) = none →
      kb.find? (fun p => p.1 == k) = some pr →
      get_precaution_text kb (some k) =
        bulletJoin (synthTips pr.2 ++ GENERIC_PRECAUTIONS.take 1)) ∧
    (get_precaution_text kb none = bulletJoin (noCondTips ++ GENERIC_PRECAUTIONS)) := by
  refine ⟨?_, ?_, rfl⟩
  · intro pr hpr
    have hmem : pr ∈ PRECAUTION_MAP := List.mem_of_find?_eq_some hpr
    have hall : ∀ x ∈ PRECAUTION_MAP, x.1 ≠ [] := by decide
    have hkpr : pr.1 = k := by
      have := List.find?_some hpr
      simpa using this
    have hk : k ≠ [] := hkpr ▸ hall pr hmem
    simp only [get_precaution_text]
    rw [if_pos hk, hpr]
  · intro pr hk hmap hkb
    simp only [get_precaution_text]
    rw [if_pos hk, hmap, hkb]

/-- Witness for the amended C6: the curated key `"fever"`. -/
theorem C6_witness :
    get_precaution_text [] (some (tl "fever")) =
      bulletJoin (((PRECAUTION_MAP.find? (fun p => p.1 == tl "fever")).getD ([], [])).2 ++
        GENERIC_PRECAUTIONS.take 2) :=
  (C6_amended_precautions [] (tl "fever")).1
    ((PRECAUTION_MAP.find? (fun p => p.1 == tl "fever")).getD ([], [])) (by decide)

/-- A join with a non-empty first part is non-empty. -/
theorem intercalate_cons_ne_nil (sep x : Txt) (xs : List Txt) (hx : x ≠ []) :
    List.intercalate sep (x :: xs) ≠ [] := by
  unfold List.intercalate
  cases xs with
  | nil => simpa [List.intersperse] using hx
  | cons y ys => simp [List.intersperse, hx]

/-- `"\n".join` of formatted medicine lines is non-empty when there is at
least one entry. -/
theorem joinTxt_fmtMed_ne_nil (m : MedEntry) (rest : List MedEntry) :
    joinTxt (tl "\n") ((m :: rest).map fmtMed) ≠ [] := by
  unfold joinTxt
  rw [List.map_cons]
  exact intercalate_cons_ne_nil _ _ _ (by simp [fmtMed, tl])

/-- C7: a key with at least one catalog entry yields the newline-joined
formatted lines (a truthy text the caller keeps); an absent key yields
`None` and a key mapped to an empty list yields the empty string — both
falsy, so the caller's `or` substitutes the no-options message. -/
theorem C7_medicine_text (meds : Catalog) (k : Txt) :
    (∀ pr, meds.find? (fun p => p.1 == k) = some pr → pr.2 ≠ [] →
      get_medicine_text meds k = some (joinTxt (tl "\n") (pr.2.map fmtMed)) ∧
      joinTxt (tl "\n") (pr.2.map fmtMed) ≠ [] ∧
      pyOrTxt (get_medicine_text meds k) NO_MED_MSG = joinTxt (tl "\n") (pr.2.map fmtMed)) ∧
    (meds.find? (fun p => p.1 == k) = none →
      get_medicine_text meds k = none ∧
      pyOrTxt (get_medicine_text meds k) NO_MED_MSG = NO_MED_MSG) ∧
    (∀ pr, meds.find? (fun p => p.1 == k) = some pr → pr.2 = [] →
      get_medicine_text meds k = some [] ∧
      pyOrTxt (get_medicine_text meds k) NO_MED_MSG = NO_MED_MSG) := by
  refine ⟨?_, ?_, ?_⟩
  · intro pr hpr hne
    have hget : get_medicine_text meds k = some (joinTxt (tl "\n") (pr.2.map fmtMed)) := by
      unfold get_medicine_text
      rw [hpr]
    have hjoin : joinTxt (tl "\n") (pr.2.map fmtMed) ≠ [] := by
      cases h2 : pr.2 with
      | nil => exact absurd h2 hne
      | cons m rest => exact joinTxt_fmtMed_ne_nil m rest
    refine ⟨hget, hjoin, ?_⟩
    rw [hget]
    simp [pyOrTxt, hjoin]
  · intro hnone
    have hget : get_medicine_text meds k = none := by
      unfold get_medicine_text
      rw [hnone]
    exact ⟨hget, by rw [hget]; rfl⟩
  · intro pr hpr hempty
    have hget : get_medicine_text meds k = some [] := by
      unfold get_medicine_text
      rw [hpr]
      dsimp only
      rw [hempty]
      rfl
    exact ⟨hget, by rw [hget]; rfl⟩

/-- Witness for C7: one catalog entry for `"fever"`. -/
theorem C7_witness :
    get_medicine_text [(tl "fever", [⟨tl "paracetamol", tl "fever relief", tl "max 4g daily"⟩])]
        (tl "fever") =
      some (joinTxt (tl "\n")
        ([⟨tl "paracetamol", tl "fever relief", tl "max 4g daily"⟩].map fmtMed)) ∧
    joinTxt (tl "\n")
        ([(⟨tl "paracetamol", tl "fever relief", tl "max 4g daily"⟩ : MedEntry)].map fmtMed) ≠ [] ∧
    pyOrTxt (get_medicine_text
        [(tl "fever", [⟨tl "paracetamol", tl "fever relief", tl "max 4g daily"⟩])] (tl "fever"))
        NO_MED_MSG =
      joinTxt (tl "\n") ([⟨tl "paracetamol", tl "fever relief", tl "max 4g daily"⟩].map fmtMed) :=
  (C7_medicine_text [(tl "fever", [⟨tl "paracetamol", tl "fever relief", tl "max 4g daily"⟩])]
      (tl "fever")).1
    (tl "fever", [⟨tl "paracetamol", tl "fever relief", tl "max 4g daily"⟩]) (by decide) (by decide)

/-- C8 counterexample: a condition entry whose title is empty puts the
empty string into the stored keyword set — empty-string keywords are NOT
excluded at build time (they are filtered later, at the use sites). -/
theorem C8_counterexample :
    buildIndex [(tl "c", ⟨[], [tl "cough"], [], none⟩)] =
      [⟨tl "c", [], [[], tl "cough"]⟩] ∧
    ([] : Txt) ∈ (⟨tl "c", [], [[], tl "cough"]⟩ : IdxCond).keywords := by
  constructor
  · decide
  · simp

/-- C8 amended: the stored keyword set is exactly
`{lowercased title} ∪ {lowercased symptom phrases}`, with NO exclusion of
empty strings (the empty string is a member whenever the title or a
symptom is empty; use sites filter it out instead). -/
theorem C8_amended_index_membership (kb : KBase) (k : Txt) (e : CondEntry)
    (h : (k, e) ∈ kb) :
    ∃ ic ∈ buildIndex kb, ic.key = k ∧ ic.title = e.title ∧
      (∀ x, x ∈ ic.keywords ↔ (x = lowerTxt e.title ∨ ∃ s ∈ e.symptoms, x = lowerTxt s)) := by
  refine ⟨⟨k, e.title, (lowerTxt e.title :: e.symptoms.map lowerTxt).dedup⟩, ?_, rfl, rfl, ?_⟩
  · unfold buildIndex
    exact List.mem_map.mpr ⟨(k, e), h, rfl⟩
  · intro x
    simp only [List.mem_dedup, List.mem_cons, List.mem_map]
    constructor
    · rintro (hx | ⟨s, hs, hsx⟩)
      · exact Or.inl hx
      · exact Or.inr ⟨s, hs, hsx.symm⟩
    · rintro (hx | ⟨s, hs, hsx⟩)
      · exact Or.inl hx
      · exact Or.inr ⟨s, hs, hsx.symm⟩

/-- Witness for the amended C8. -/
theorem C8_witness :
    ∃ ic ∈ buildIndex [(tl "flu", ⟨tl "Flu", [tl "cough"], [], none⟩)], ic.key = tl "flu" ∧
      ic.title = (⟨tl "Flu", [tl "cough"], [], none⟩ : CondEntry).title ∧
      (∀ x, x ∈ ic.keywords ↔
        (x = lowerTxt (⟨tl "Flu", [tl "cough"], [], none⟩ : CondEntry).title ∨
          ∃ s ∈ (⟨tl "Flu", [tl "cough"], [], none⟩ : CondEntry).symptoms, x = lowerTxt s)) :=
  C8_amended_index_membership [(tl "flu", ⟨tl "Flu", [tl "cough"], [], none⟩)]
    (tl "flu") ⟨tl "Flu", [tl "cough"], [], none⟩ (by simp)

/-- C9 counterexample: two enumeration orders of the same two-element
keyword set produce different joined vocabulary strings, different
similarity ratios (10/13 versus 6/13 against the message `"ab cd"`), and
different `find_condition_simple` results. -/
theorem C9_counterexample :
    ([tl "abx", tl "cdy"] : List Txt).Perm [tl "cdy", tl "abx"] ∧
    ratioOf (tl "ab cd") (combinedVocab ⟨tl "k1", [], [tl "abx", tl "cdy"]⟩) ≠
      ratioOf (tl "ab cd") (combinedVocab ⟨tl "k1", [], [tl "cdy", tl "abx"]⟩) ∧
    find_condition_simple [⟨tl "k1", [], [tl "abx", tl "cdy"]⟩] (tl "ab cd") ≠
      find_condition_simple [⟨tl "k1", [], [tl "cdy", tl "abx"]⟩] (tl "ab cd") := by
  have hcA : combinedVocab ⟨tl "k1", [], [tl "abx", tl "cdy"]⟩ = tl " abx cdy" := by decide
  have hcB : combinedVocab ⟨tl "k1", [], [tl "cdy", tl "abx"]⟩ = tl " cdy abx" := by decide
  have hmA : matchesTotal (tl "ab cd") (tl " abx cdy") 6 0 5 0 8 = 5 := by decide
  have hmB : matchesTotal (tl "ab cd") (tl " cdy abx") 6 0 5 0 8 = 3 := by decide
  have hrA : ratioOf (tl "ab cd") (tl " abx cdy") = 10/13 := by
    unfold ratioOf
    rw [show (tl "ab cd").length = 5 from rfl, show (tl " abx cdy").length = 8 from rfl]
    rw [if_neg (by norm_num)]
    norm_num [hmA]
  have hrB : ratioOf (tl "ab cd") (tl " cdy abx") = 6/13 := by
    unfold ratioOf
    rw [show (tl "ab cd").length = 5 from rfl, show (tl " cdy abx").length = 8 from rfl]
    rw [if_neg (by norm_num)]
    norm_num [hmB]
  have hfA : find_condition_simple [⟨tl "k1", [], [tl "abx", tl "cdy"]⟩] (tl "ab cd") =
      (some (tl "k1"), 10/13) := by
    rw [find_condition_simple_tier3 _ _ (by decide) (by decide)]
    rw [show lowerTxt (tl "ab cd") = tl "ab cd" from by decide]
    simp only [fuzzy_fallback, List.map_cons, List.map_nil]
    rw [hcA, hrA]
    rw [show sortDesc [(tl "k1", (10:ℚ)/13)] = [(tl "k1", (10:ℚ)/13)] from rfl]
    dsimp only
    rw [if_pos (by norm_num)]
  have hfB : find_condition_simple [⟨tl "k1", [], [tl "cdy", tl "abx"]⟩] (tl "ab cd") =
      (some (tl "k1"), 6/13) := by
    rw [find_condition_simple_tier3 _ _ (by decide) (by decide)]
    rw [show lowerTxt (tl "ab cd") = tl "ab cd" from by decide]
    simp only [fuzzy_fallback, List.map_cons, List.map_nil]
    rw [hcB, hrB]
    rw [show sortDesc [(tl "k1", (6:ℚ)/13)] = [(tl "k1", (6:ℚ)/13)] from rfl]
    dsimp only
    rw [if_pos (by norm_num)]
  refine ⟨by decide, ?_, ?_⟩
  · rw [hcA, hcB, hrA, hrB]
    norm_num
  · rw [hfA, hfB]
    intro hcontra
    have := (Prod.ext_iff.mp hcontra).2
    norm_num at this

/-- `find?` composed with a projection only depends on a view of the
elements, when both the predicate and the projection factor through it. -/
theorem find?_map_congr_of_view {β γ : Type} (g : IdxCond → β) (p : IdxCond → Bool)
    (r : IdxCond → γ)
    (hp : ∀ c c', g c = g c' → p c = p c')
    (hr : ∀ c c', g c = g c' → r c = r c') :
    ∀ (idx1 idx2 : List IdxCond), idx1.map g = idx2.map g →
      (idx1.find? p).map r = (idx2.find? p).map r := by
  intro idx1
  induction idx1 with
  | nil =>
    intro idx2 h
    cases idx2 with
    | nil => rfl
    | cons b bs => simp at h
  | cons a as ih =>
    intro idx2 h
    cases idx2 with
    | nil => simp at h
    | cons b bs =>
      simp only [List.map_cons, List.cons.injEq] at h
      obtain ⟨hg, htl⟩ := h
      by_cases hpa : p a = true
      · rw [List.find?_cons_of_pos _ hpa,
          List.find?_cons_of_pos _ (by rw [← hp a b hg]; exact hpa)]
        simp only [Option.map_some']
        rw [hr a b hg]
      · rw [List.find?_cons_of_neg _ hpa,
          List.find?_cons_of_neg _ (by rw [← hp a b hg]; exact hpa)]
        exact ih bs htl

/-- `map f` only depends on a view of the elements when `f` factors
through it. -/
theorem map_congr_of_view {β γ : Type} (g : IdxCond → β) (f : IdxCond → γ)
    (hf : ∀ c c', g c = g c' → f c = f c') :
    ∀ (idx1 idx2 : List IdxCond), idx1.map g = idx2.map g →
      idx1.map f = idx2.map f := by
  intro idx1
  induction idx1 with
  | nil =>
    intro idx2 h
    cases idx2 with
    | nil => rfl
    | cons b bs => simp at h
  | cons a as ih =>
    intro idx2 h
    cases idx2 with
    | nil => simp at h
    | cons b bs =>
      simp only [List.map_cons, List.cons.injEq] at h
      obtain ⟨hg, htl⟩ := h
      rw [List.map_cons, List.map_cons, hf a b hg, ih bs htl]

/-- C9 amended: `find_condition_simple` is a pure function of the
lowercased message and, per condition, the key, the lowercased title and
the keyword list in its enumeration order — so it is deterministic once
each keyword set's enumeration is fixed; by `C9_counterexample` it is NOT
independent of that enumeration order. -/
theorem C9_amended_determinism (idx1 idx2 : List IdxCond) (msg : Txt)
    (h : idx1.map (fun c => (c.key, lowerTxt c.title, c.keywords)) =
         idx2.map (fun c => (c.key, lowerTxt c.title, c.keywords))) :
    find_condition_simple idx1 msg = find_condition_simple idx2 msg := by
  have hkey : ∀ c c' : IdxCond,
      ((c.key, lowerTxt c.title, c.keywords) : Txt × Txt × List Txt) =
        (c'.key, lowerTxt c'.title, c'.keywords) → c.key = c'.key :=
    fun c c' hcc => congrArg (fun x : Txt × Txt × List Txt => x.1) hcc
  have hkw : ∀ c c' : IdxCond,
      ((c.key, lowerTxt c.title, c.keywords) : Txt × Txt × List Txt) =
        (c'.key, lowerTxt c'.title, c'.keywords) → c.keywords = c'.keywords :=
    fun c c' hcc => congrArg (fun x : Txt × Txt × List Txt => x.2.2) hcc
  have hcomb : ∀ c c' : IdxCond,
      ((c.key, lowerTxt c.title, c.keywords) : Txt × Txt × List Txt) =
        (c'.key, lowerTxt c'.title, c'.keywords) →
      combinedVocab c = combinedVocab c' := by
    intro c c' hcc
    have h1 := congrArg (fun x : Txt × Txt × List Txt => x.2.1) hcc
    have h2 := congrArg (fun x : Txt × Txt × List Txt => x.2.2) hcc
    simp only at h1 h2
    unfold combinedVocab
    rw [h1, h2]
  have e1 : (idx1.find? (fun c => decide (c.key <:+: lowerTxt msg))).map IdxCond.key =
      (idx2.find? (fun c => decide (c.key <:+: lowerTxt msg))).map IdxCond.key :=
    find?_map_congr_of_view _ _ _
      (fun c c' hcc => by rw [hkey c c' hcc]) (fun c c' hcc => hkey c c' hcc) idx1 idx2 h
  have e2 : (idx1.find? (fun c => c.keywords.any
        (fun kw => !(kw == []) && decide (kw <:+: lowerTxt msg)))).map IdxCond.key =
      (idx2.find? (fun c => c.keywords.any
        (fun kw => !(kw == []) && decide (kw <:+: lowerTxt msg)))).map IdxCond.key :=
    find?_map_congr_of_view _ _ _
      (fun c c' hcc => by rw [hkw c c' hcc]) (fun c c' hcc => hkey c c' hcc) idx1 idx2 h
  have e3 : idx1.map (fun c => (c.key, ratioOf (lowerTxt msg) (combinedVocab c))) =
      idx2.map (fun c => (c.key, ratioOf (lowerTxt msg) (combinedVocab c))) :=
    map_congr_of_view _ _
      (fun c c' hcc => by rw [hkey c c' hcc, hcomb c c' hcc]) idx1 idx2 h
  have efz : fuzzy_fallback idx1 (lowerTxt msg) = fuzzy_fallback idx2 (lowerTxt msg) := by
    simp only [fuzzy_fallback]
    rw [e3]
  cases h1 : idx1.find? (fun c => decide (c.key <:+: lowerTxt msg)) with
  | some c =>
    have hmap : (idx2.find? (fun c => decide (c.key <:+: lowerTxt msg))).map IdxCond.key =
        some c.key := by
      rw [← e1, h1]
      rfl
    obtain ⟨c2, hc2, hc2k⟩ := Option.map_eq_some'.mp hmap
    rw [find_condition_simple_tier1 idx1 msg c h1,
      find_condition_simple_tier1 idx2 msg c2 hc2, hc2k]
  | none =>
    have h1' : idx2.find? (fun c => decide (c.key <:+: lowerTxt msg)) = none := by
      cases hx : idx2.find? (fun c => decide (c.key <:+: lowerTxt msg)) with
      | none => rfl
      | some c2 =>
        rw [h1, hx] at e1
        simp at e1
    cases h2 : idx1.find? (fun c => c.keywords.any
        (fun kw => !(kw == []) && decide (kw <:+: lowerTxt msg))) with
    | some c =>
      have hmap : (idx2.find? (fun c => c.keywords.any
          (fun kw => !(kw == []) && decide (kw <:+: lowerTxt msg)))).map IdxCond.key =
          some c.key := by
        rw [← e2, h2]
        rfl
      obtain ⟨c2, hc2, hc2k⟩ := Option.map_eq_some'.mp hmap
      rw [find_condition_simple_tier2 idx1 msg c h1 h2,
        find_condition_simple_tier2 idx2 msg c2 h1' hc2, hc2k]
    | none =>
      have h2' : idx2.find? (fun c => c.keywords.any
          (fun kw => !(kw == []) && decide (kw <:+: lowerTxt msg))) = none := by
        cases hx : idx2.find? (fun c => c.keywords.any
            (fun kw => !(kw == []) && decide (kw <:+: lowerTxt msg))) with
        | none => rfl
        | some c2 =>
          rw [h2, hx] at e2
          simp at e2
      rw [find_condition_simple_tier3 idx1 msg h1 h2,
        find_condition_simple_tier3 idx2 msg h1' h2', efz]

/-- Witness for the amended C9: two indexes agreeing up to title case give
equal results. -/
theorem C9_witness :
    find_condition_simple [⟨tl "k", tl "AB", [tl "x"]⟩] (tl "zzz") =
      find_condition_simple [⟨tl "k", tl "ab", [tl "x"]⟩] (tl "zzz") :=
  C9_amended_determinism [⟨tl "k", tl "AB", [tl "x"]⟩] [⟨tl "k", tl "ab", [tl "x"]⟩]
    (tl "zzz") (by decide)
